import Mathlib

/-!
Verification of the telemetry message-queue broker, its consistent-hash
routing proxy and the HTTP client library.

The Go sources are shallowly embedded: each Go function used by the claims
is translated into an executable Lean definition over explicit state.
Machine integers are modelled as `Nat` (all quantities involved are
non-negative and far below any overflow boundary except the 32-bit ring
hashes, where reduction `% 256` of digest bytes keeps values below `2^32`).
Wall-clock instants are modelled as an abstract `Nat` counter; the RFC3339
rendering of a timestamp is modelled by its decimal rendering, which is
irrelevant to every claim (no claim inspects the timestamp's text).
File-system writes are modelled by a `log` string carried in the partition
state together with a `writeOk` oracle for write failures.
-/

namespace MQ

/-! ## Association-list maps

Go `map` values are embedded as association lists with overwrite-on-insert
and erase-all-occurrences semantics, which coincides with Go map semantics
because insertion keeps keys distinct. -/

/-- Lookup in an association-list map (Go `m[k]` with `ok` flag). -/
def alLookup {κ α : Type} [DecidableEq κ] : List (κ × α) → κ → Option α
  | [], _ => none
  | e :: rest, k => if e.1 = k then some e.2 else alLookup rest k

/-- Remove every binding of a key (Go `delete(m, k)`). -/
def alErase {κ α : Type} [DecidableEq κ] : List (κ × α) → κ → List (κ × α)
  | [], _ => []
  | e :: rest, k => if e.1 = k then alErase rest k else e :: alErase rest k

/-- Overwriting insert (Go `m[k] = v`). -/
def alInsert {κ α : Type} [DecidableEq κ] (l : List (κ × α)) (k : κ) (v : α) :
    List (κ × α) :=
  (k, v) :: alErase l k

/-! ## Decimal rendering (Go `%d` on a non-negative int) -/

/-- Decimal digit character. -/
def digitChar (n : Nat) : Char := Char.ofNat (48 + n)

/-- Decimal digits with an explicit recursion budget (structural recursion
keeps the definition kernel-computable; a budget of `n + 1` always
suffices since dividing by ten strictly shrinks a positive number). -/
def natDigitsAux : Nat → Nat → List Char
  | 0, _ => []
  | fuel + 1, n =>
    if n < 10 then [digitChar n]
    else natDigitsAux fuel (n / 10) ++ [digitChar (n % 10)]

/-- Decimal digits of a natural number, most significant first
(the output of Go `fmt.Sprintf("%d", n)` / `strconv.Itoa(n)`). -/
def natDigits (n : Nat) : List Char := natDigitsAux (n + 1) n

/-- Decimal rendering of a natural number as a string. -/
def natStr (n : Nat) : String := String.mk (natDigits n)

/-- Accumulating decimal parse of a digit sequence. -/
def atoiAux : List Char → Nat → Option Nat
  | [], acc => some acc
  | c :: r, acc =>
    if 48 ≤ c.toNat ∧ c.toNat ≤ 57 then atoiAux r (acc * 10 + (c.toNat - 48))
    else none

/-- Parse of a non-negative decimal numeral (Go `strconv.Atoi`, restricted
to the non-negative inputs every claim exercises: the empty string and any
non-digit character fail). -/
def strconvAtoi (s : String) : Option Nat :=
  if s.data = [] then none else atoiAux s.data 0

/-! ## Broker data model (services/msg_queue/main.go) -/

/-- Message is the unit of transfer (struct `Message`). -/
structure Message where
  id : String
  payload : String
  createdAt : Nat
  topic : String
  partition : Nat
deriving DecidableEq, Repr

/-- In-flight message metadata (struct `pending`). -/
structure PendingRec where
  msg : Message
  deadline : Nat
  group : String
deriving DecidableEq, Repr

/-- Queue and persistence state of a single partition (struct `Partition`).
The append-only file is modelled by the text appended during this run
(`log`); `closed` models a cancelled `ctx`. -/
structure PartitionState where
  topic : String
  index : Nat
  queue : List Message
  pending : List (String × PendingRec)
  log : String
  visTO : Nat
  closed : Bool
deriving DecidableEq, Repr

/-- Capacity of the in-memory queue channel (`make(chan Message, 2000)`). -/
def queueCapacity : Nat := 2000

/-- Monitor ticker period in seconds (`time.NewTicker(50 * time.Second)`). -/
def monitorTickSeconds : Nat := 50

/-- Default visibility timeout in seconds (`defaultVisibilityTimeout = 30 * time.Second`). -/
def defaultVisibilityTimeoutSeconds : Nat := 30

/-- Log-file path of a partition (`filepath.Join(storageDir, topic)` +
`partition-<n>.log` with `storageDir = "./data"`). -/
def logFilePath (topic : String) (index : Nat) : String :=
  "./data/" ++ topic ++ "/partition-" ++ natStr index ++ ".log"

/-- Fresh partition state (`newPartition`): empty queue and pending set,
nothing appended to the log file yet. -/
def newPartition (topic : String) (index : Nat) (visTO : Nat) : PartitionState :=
  { topic := topic, index := index, queue := [], pending := [], log := ""
    visTO := visTO, closed := false }

/-! ## JSON encoding (Go `encoding/json.Marshal`)

`json.Marshal` escapes `"` and `\`, renders `\n`, `\r`, `\t` with their
two-character escapes, other control characters as `\u00XX`, and (HTML
escaping being on by default) the characters lt, gt and amp as
`\u003c`, `\u003e`, `\u0026` and U+2028/U+2029 as `\u2028`/`\u2029`;
all other runes are copied verbatim. -/

/-- Lowercase hexadecimal digit character (table `"0123456789abcdef"`). -/
def hexDigitChar (n : Nat) : Char :=
  if n < 10 then Char.ofNat (48 + n) else Char.ofNat (87 + n)

/-- Escape of one rune inside a JSON string literal, as produced by Go
`encoding/json` with default HTML escaping. -/
def jsonEscapeChar (c : Char) : List Char :=
  if c = '"' then ['\\', '"']
  else if c = '\\' then ['\\', '\\']
  else if c = '\n' then ['\\', 'n']
  else if c = '\r' then ['\\', 'r']
  else if c = '\t' then ['\\', 't']
  else if c.toNat < 32 ∨ c = '<' ∨ c = '>' ∨ c = '&' then
    ['\\', 'u', '0', '0', hexDigitChar (c.toNat / 16), hexDigitChar (c.toNat % 16)]
  else if c.toNat = 8232 ∨ c.toNat = 8233 then
    ['\\', 'u', '2', '0', '2', hexDigitChar (c.toNat % 16)]
  else [c]

/-- Escape of a rune sequence inside a JSON string literal. -/
def escList (l : List Char) : List Char := l.flatMap jsonEscapeChar

/-- JSON string literal for `s`, quotes included. -/
def jsonQuote (s : String) : String := "\"" ++ String.mk (escList s.data) ++ "\""

/-- Abstract rendering of a wall-clock instant (stands for the quoted
RFC3339 text `json.Marshal` emits for a `time.Time`; modelled by the
decimal rendering of the abstract instant, which like RFC3339 text
contains no character needing escapes). -/
def encTime (t : Nat) : String := natStr t

/-- JSON encoding of a `Message` (`json.Marshal(m)` with the struct's
field order and tags `id`, `payload`, `created_at`, `topic`, `partition`). -/
def encMessage (m : Message) : String :=
  "\x7b\"id\":" ++ jsonQuote m.id ++ ",\"payload\":" ++ jsonQuote m.payload ++
    ",\"created_at\":" ++ jsonQuote (encTime m.createdAt) ++ ",\"topic\":" ++
    jsonQuote m.topic ++ ",\"partition\":" ++ natStr m.partition ++ "\x7d"

/-! ## Partition operations -/

/-- Append the JSON-encoded message plus a newline to the log file
(`Partition.persist`; `p.file.Write(append(b, '\n'))`). -/
def persist (p : PartitionState) (m : Message) : PartitionState :=
  { p with log := p.log ++ encMessage m ++ "\n" }

/-- Enqueue (`Partition.enqueue`): persist to the log first, then attempt a
non-blocking push onto the in-memory queue; a full queue is reported as
`queue full (<n> messages)` while the log line already written remains.
The `writeOk` oracle models success of the file write. -/
def enqueue (writeOk : Bool) (p : PartitionState) (m : Message) :
    PartitionState × Except String Unit :=
  if !writeOk then (p, Except.error "persist failed")
  else
    let p1 := persist p m
    if p1.queue.length < queueCapacity then
      ({ p1 with queue := p1.queue ++ [m] }, Except.ok ())
    else
      (p1, Except.error ("queue full (" ++ natStr p1.queue.length ++ " messages)"))

/-- Fetch-and-track (`Partition.fetchAndTrack`): a closed partition yields
the terminal `partition closed` error; otherwise the queue head, if any, is
dequeued and recorded in the pending set under its id with deadline
`now + visTO` and the consuming group; an empty queue yields the
`no messages available` timeout after the bounded 5-second wait. -/
def fetchAndTrack (now : Nat) (p : PartitionState) (group : String) :
    PartitionState × Except String Message :=
  if p.closed then (p, Except.error "partition closed")
  else
    match p.queue with
    | [] => (p, Except.error "no messages available")
    | m :: rest =>
      ({ p with queue := rest
                pending := alInsert p.pending m.id ⟨m, now + p.visTO, group⟩ },
       Except.ok m)

/-- Acknowledge (`Partition.ack`): succeeds, removing the pending record,
exactly when the id is pending and its recorded group matches. -/
def ack (p : PartitionState) (msgID : String) (group : String) :
    PartitionState × Bool :=
  match alLookup p.pending msgID with
  | none => (p, false)
  | some pd =>
    if pd.group ≠ group then (p, false)
    else ({ p with pending := alErase p.pending msgID }, true)

/-- One step of the monitor's scan (`Partition.monitorPending`, body of the
`for id, pd := range p.pending` loop): an expired record (`now.After(deadline)`)
is deleted from the pending set and its message is pushed back
non-blockingly at the tail of the queue, the push being skipped (message
lost from memory) when the queue is at capacity. -/
def requeueStep (now : Nat) (st : PartitionState) (e : String × PendingRec) :
    PartitionState :=
  if e.2.deadline < now then
    let st1 := { st with pending := alErase st.pending e.1 }
    if st1.queue.length < queueCapacity then
      { st1 with queue := st1.queue ++ [e.2.msg] }
    else st1
  else st

/-- One full scan of the pending set at instant `now` (`monitorPending`,
one ticker firing). -/
def monitorScan (now : Nat) (p : PartitionState) : PartitionState :=
  p.pending.foldl (requeueStep now) p

/-- Shutdown of a partition (`Partition.Close` cancelling the context). -/
def closePartition (p : PartitionState) : PartitionState :=
  { p with closed := true }

/-! ## Broker state and HTTP handlers -/

/-- HTTP response, reduced to status code and body. -/
structure HttpResponse where
  status : Nat
  body : String
deriving DecidableEq, Repr

/-- Broker state (struct `Broker`): the topics registry (topic name to
declared partition count) and the lazily created partitions, keyed first by
topic and then by partition index. -/
structure BrokerState where
  topics : List (String × Nat)
  parts : List (String × List (Nat × PartitionState))
  visTO : Nat
deriving DecidableEq, Repr

/-- Partition lookup for the produce path (`Broker.getPartition` with
`isProduceHandling = true` falling through to `createPartitionIfNotExists`):
unknown topics fail, existing partitions are returned, an index at or above
the declared count fails, and otherwise a fresh partition is created. -/
def getPartitionForProduce (b : BrokerState) (topic : String) (part : Nat) :
    Except String PartitionState :=
  match alLookup b.parts topic with
  | none => Except.error "unknown topic"
  | some pm =>
    match alLookup pm part with
    | some p => Except.ok p
    | none =>
      match alLookup b.topics topic with
      | none => Except.error "unknown topic"
      | some maxP =>
        if part ≥ maxP then
          Except.error ("partition " ++ natStr part ++ " exceeds max partitions " ++
            natStr maxP ++ " for topic " ++ topic)
        else Except.ok (newPartition topic part b.visTO)

/-- Partition lookup for the consume and ack paths (`Broker.getPartition`
with `isProduceHandling = false`): only existing partitions are returned. -/
def getPartitionExisting (b : BrokerState) (topic : String) (part : Nat) :
    Except String PartitionState :=
  match alLookup b.parts topic with
  | none => Except.error "unknown topic"
  | some pm =>
    match alLookup pm part with
    | some p => Except.ok p
    | none =>
      Except.error ("partition " ++ natStr part ++ " does not exist for topic " ++ topic)

/-- Write back a partition's updated state into the broker (the Go broker
shares `*Partition` by pointer; the functional model stores it explicitly). -/
def setPartition (b : BrokerState) (topic : String) (part : Nat)
    (p : PartitionState) : BrokerState :=
  match alLookup b.parts topic with
  | none => b
  | some pm => { b with parts := alInsert b.parts topic (alInsert pm part p) }

/-- Log text of the partition the produce path will use (empty for a
partition about to be created lazily). -/
def logBefore (b : BrokerState) (topic : String) (part : Nat) : String :=
  match getPartitionForProduce b topic part with
  | Except.ok p => p.log
  | Except.error _ => ""

/-! ## Body parsing in the produce handler -/

/-- Space test of Go `strings.TrimSpace` (`unicode.IsSpace`), restricted to
the Latin-1 white-space characters; wider Unicode category-Z white space is
irrelevant to every claim. -/
def isSpaceChar (c : Char) : Bool :=
  decide (c = ' ' ∨ c = '\t' ∨ c = '\n' ∨ c.toNat = 11 ∨ c.toNat = 12 ∨
    c = '\r' ∨ c.toNat = 133 ∨ c.toNat = 160)

/-- Go `strings.TrimSpace`. -/
def trimSpace (s : String) : String :=
  String.mk (((s.data.dropWhile isSpaceChar).reverse.dropWhile isSpaceChar).reverse)

/-- Match a literal prefix, returning the remainder (`strings.HasPrefix` /
`strings.TrimPrefix` combined); recursion on the prefix so that an
exhausted prefix reduces without inspecting the remaining input. -/
def matchPfx {α : Type} [DecidableEq α] (l q : List α) : Option (List α) :=
  match q with
  | [] => some l
  | qh :: qs =>
    match l with
    | [] => none
    | c :: l2 => if c = qh then matchPfx l2 qs else none
termination_by structural q

/-- Go `strings.HasPrefix p s`. -/
def hasPfx (p : String) (s : String) : Bool :=
  (matchPfx s.data p.data).isSome

/-- Go `strings.TrimPrefix`: drop the prefix when present. -/
def trimPfx (p : String) (s : String) : String :=
  match matchPfx s.data p.data with
  | some r => String.mk r
  | none => s

/-- Hexadecimal digit value of a character. -/
def hexVal (c : Char) : Option Nat :=
  if 48 ≤ c.toNat ∧ c.toNat ≤ 57 then some (c.toNat - 48)
  else if 97 ≤ c.toNat ∧ c.toNat ≤ 102 then some (c.toNat - 87)
  else if 65 ≤ c.toNat ∧ c.toNat ≤ 70 then some (c.toNat - 55)
  else none

/-- Mode of the string-literal scanner: ordinary characters, just after a
backslash, or inside a `\uXXXX` escape with the count of hex digits still
expected and the value accumulated so far. -/
inductive StrPMode where
  | norm : StrPMode
  | esc : StrPMode
  | uni : Nat → Nat → StrPMode
deriving DecidableEq, Repr

/-- One-character-at-a-time scanner for the remainder of a JSON string
literal after its opening quote, undoing `encoding/json` escapes; `acc`
collects decoded runes in reverse. Structured as a single-level recursion
so that it both compiles structurally and computes in the kernel. -/
def parseStrSM : List Char → StrPMode → List Char → Option (List Char × List Char)
  | [], _, _ => none
  | c :: rest, StrPMode.norm, acc =>
    if c = '"' then some (acc.reverse, rest)
    else if c = '\\' then parseStrSM rest StrPMode.esc acc
    else parseStrSM rest StrPMode.norm (c :: acc)
  | e :: rest, StrPMode.esc, acc =>
    if e = '"' then parseStrSM rest StrPMode.norm ('"' :: acc)
    else if e = '\\' then parseStrSM rest StrPMode.norm ('\\' :: acc)
    else if e = '/' then parseStrSM rest StrPMode.norm ('/' :: acc)
    else if e = 'n' then parseStrSM rest StrPMode.norm ('\n' :: acc)
    else if e = 'r' then parseStrSM rest StrPMode.norm ('\r' :: acc)
    else if e = 't' then parseStrSM rest StrPMode.norm ('\t' :: acc)
    else if e = 'b' then parseStrSM rest StrPMode.norm ('\x08' :: acc)
    else if e = 'f' then parseStrSM rest StrPMode.norm ('\x0c' :: acc)
    else if e = 'u' then parseStrSM rest (StrPMode.uni 4 0) acc
    else none
  | hch :: rest, StrPMode.uni (k + 1) v, acc =>
    match hexVal hch with
    | some dg =>
      if k = 0 then parseStrSM rest StrPMode.norm (Char.ofNat (v * 16 + dg) :: acc)
      else parseStrSM rest (StrPMode.uni k (v * 16 + dg)) acc
    | none => none
  | _ :: _, StrPMode.uni 0 _, _ => none

/-- Parser for the remainder of a JSON string literal after its opening
quote; returns the decoded runes and the input remaining after the
closing quote. -/
def parseStrAux (l : List Char) : Option (List Char × List Char) :=
  parseStrSM l StrPMode.norm []

/-- Decoder for the one-field object `\x7b"payload":"..."\x7d`
(`json.Unmarshal` into `struct Payload string`, specialized to the exact
grammar the client's `Publish` emits, the only JSON bodies the verified
pipeline produces). -/
def parsePayloadField (s : String) : Option String :=
  match matchPfx s.data ("\x7b\"payload\":\"").data with
  | none => none
  | some rest =>
    match parseStrAux rest with
    | none => none
    | some (v, rest2) =>
      if rest2 = ['\x7d'] then some (String.mk v) else none

/-- Payload extraction of `Broker.produceHandler`: trim the body, and when
it looks like a JSON object try to decode a non-empty `payload` field,
keeping the raw (trimmed) body otherwise. -/
def brokerParseBody (body : String) : String :=
  let payload := trimSpace body
  if hasPfx "\x7b" payload then
    match parsePayloadField payload with
    | some v => if v ≠ "" then v else payload
    | none => payload
  else payload

/-- Produce handler (`Broker.produceHandler` on
`POST /produce?topic=..&partition=..`); `newID` stands for the value of
`genID()` and `now` for `time.Now()`; `writeOk` is the log-write oracle. -/
def produceHandler (b : BrokerState) (writeOk : Bool) (newID : String)
    (now : Nat) (topic partStr body : String) : BrokerState × HttpResponse :=
  if topic = "" ∨ partStr = "" then
    (b, ⟨400, "topic and partition required"⟩)
  else
    match strconvAtoi partStr with
    | none => (b, ⟨400, "bad partition"⟩)
    | some part =>
      let payload := brokerParseBody body
      let msg : Message := ⟨newID, payload, now, topic, part⟩
      match getPartitionForProduce b topic part with
      | Except.error e => (b, ⟨400, e⟩)
      | Except.ok p =>
        match enqueue writeOk p msg with
        | (p2, Except.error e) =>
          (setPartition b topic part p2, ⟨500, "enqueue failed: " ++ e⟩)
        | (p2, Except.ok _) =>
          (setPartition b topic part p2,
           ⟨200, "\x7b\"id\":\"" ++ newID ++ "\"\x7d"⟩)

/-- Ack handler (`Broker.ackHandler` on `POST /ack?topic=..&partition=..&group=..`
with body `\x7b"id":"..."\x7d`); `bodyID` stands for the decoded id field,
empty when absent. -/
def ackHandler (b : BrokerState) (topic partStr group bodyID : String) :
    BrokerState × HttpResponse :=
  if topic = "" ∨ partStr = "" ∨ group = "" then
    (b, ⟨400, "topic, partition and group required"⟩)
  else
    match strconvAtoi partStr with
    | none => (b, ⟨400, "bad partition"⟩)
    | some part =>
      match getPartitionExisting b topic part with
      | Except.error e => (b, ⟨400, e⟩)
      | Except.ok p =>
        if bodyID = "" then (b, ⟨400, "bad body"⟩)
        else
          match ack p bodyID group with
          | (_, false) => (b, ⟨400, "ack failed (unknown id or wrong group)"⟩)
          | (p2, true) => (setPartition b topic part p2, ⟨200, "ok"⟩)

/-! ## SSE framing (consume handler) and the client library
(internal/shared/http_message_queue.go) -/

/-- Lines written by `Broker.consumeHandler` for one delivered message:
`id: <id>`, `data: <message-json>`, `partition: <n>` and the blank
event-terminating line. -/
def sseEventLines (m : Message) : List String :=
  ["id: " ++ m.id, "data: " ++ encMessage m,
   "partition: " ++ natStr m.partition, ""]

/-- One iteration of the consume handler's loop: fetch a message and emit
its SSE event, emitting nothing on an empty poll or a closed partition. -/
def consumeOneSse (now : Nat) (p : PartitionState) (group : String) :
    PartitionState × List String :=
  match fetchAndTrack now p group with
  | (p2, Except.ok m) => (p2, sseEventLines m)
  | (p2, Except.error _) => (p2, [])

/-- Message as decoded by the client (struct `QueueMessage`); the creation
time is kept as the raw quoted text (the client never reads it). -/
structure QueueMessage where
  id : String
  payload : String
  createdAtStr : String
  topic : String
  partition : Nat
deriving DecidableEq, Repr

/-- Decoder of a message JSON object (`json.Unmarshal` into `QueueMessage`,
specialized to the exact field sequence `encMessage` emits — the only
strings this pipeline ever feeds it). -/
def decMessage (s : String) : Option QueueMessage :=
  match matchPfx s.data ("\x7b\"id\":\"").data with
  | none => none
  | some r1 =>
    match parseStrAux r1 with
    | none => none
    | some (idv, r2) =>
      match matchPfx r2 (",\"payload\":\"").data with
      | none => none
      | some r3 =>
        match parseStrAux r3 with
        | none => none
        | some (pv, r4) =>
          match matchPfx r4 (",\"created_at\":\"").data with
          | none => none
          | some r5 =>
            match parseStrAux r5 with
            | none => none
            | some (cv, r6) =>
              match matchPfx r6 (",\"topic\":\"").data with
              | none => none
              | some r7 =>
                match parseStrAux r7 with
                | none => none
                | some (tv, r8) =>
                  match matchPfx r8 (",\"partition\":").data with
                  | none => none
                  | some r9 =>
                    let ds := r9.takeWhile (fun c => c ≠ '\x7d')
                    let rest := r9.dropWhile (fun c => c ≠ '\x7d')
                    if rest = ['\x7d'] then
                      some ⟨String.mk idv, String.mk pv, String.mk cv,
                        String.mk tv, (strconvAtoi (String.mk ds)).getD 0⟩
                    else none

/-- Scanner state of `HTTPMessageQueue.consumeFromPartition`: the `id:` and
`data:` fields seen since the last blank line, plus the messages delivered
to the handler so far. -/
structure SseState where
  messageID : String
  messageData : String
  delivered : List QueueMessage
deriving DecidableEq, Repr

/-- One scanned line of the client's SSE loop: `id: ` and `data: ` lines
update the fields, a blank line with both fields set decodes and delivers
the message (resetting the fields), and any other line is ignored. -/
def clientSseStep (st : SseState) (line : String) : SseState :=
  if hasPfx "id: " line then { st with messageID := trimPfx "id: " line }
  else if hasPfx "data: " line then { st with messageData := trimPfx "data: " line }
  else if line = "" ∧ st.messageID ≠ "" ∧ st.messageData ≠ "" then
    match decMessage st.messageData with
    | none => { st with messageID := "", messageData := "" }
    | some qm =>
      { messageID := "", messageData := "", delivered := st.delivered ++ [qm] }
  else st

/-- Messages the client's scanner delivers for a stream of lines. -/
def clientParseSse (lines : List String) : List QueueMessage :=
  (lines.foldl clientSseStep ⟨"", "", []⟩).delivered

/-- Body of the client's `Publish` (`json.Marshal(map[string]string
\x7b"payload": string(payload)\x7d)`). -/
def clientPublishBody (payload : String) : String :=
  "\x7b\"payload\":" ++ jsonQuote payload ++ "\x7d"

/-- End-to-end payload round trip: the client publishes `pubPayload`
through `produceHandler`, the consume handler streams one event from the
touched partition, and the client's SSE scanner decodes it; returns the
payload the subscriber's handler receives. -/
def roundTripPayload (b : BrokerState) (newID : String) (now : Nat)
    (topic partStr pubPayload group : String) : Option String :=
  match produceHandler b true newID now topic partStr (clientPublishBody pubPayload) with
  | (b2, resp) =>
    if resp.status = 200 then
      match strconvAtoi partStr with
      | none => none
      | some part =>
        match alLookup b2.parts topic with
        | none => none
        | some pm =>
          match alLookup pm part with
          | none => none
          | some p2 =>
            match clientParseSse (consumeOneSse now p2 group).2 with
            | [qm] => some qm.payload
            | _ => none
    else none

/-! ## Iterated fetching (for the redelivery claim) -/

/-- State after `k` successive `fetchAndTrack` calls. -/
def fetchN (now : Nat) (group : String) (p : PartitionState) : Nat → PartitionState
  | 0 => p
  | k + 1 => (fetchAndTrack now (fetchN now group p k) group).1

/-- Entries of a pending set whose deadline has expired at `now`. -/
def expiredEntries (now : Nat) (l : List (String × PendingRec)) :
    List (String × PendingRec) :=
  l.filter (fun e => decide (e.2.deadline < now))

/-- Messages of the expired entries, in scan order. -/
def expiredMsgs (now : Nat) (l : List (String × PendingRec)) : List Message :=
  (expiredEntries now l).map (fun e => e.2.msg)

/-- Well-formedness of a pending map: keys are distinct (as in a Go map)
and every record is keyed by its message's id (as `fetchAndTrack`
maintains). -/
def pendingWF (l : List (String × PendingRec)) : Prop :=
  (l.map Prod.fst).Nodup ∧ ∀ e ∈ l, e.1 = e.2.msg.id

instance (l : List (String × PendingRec)) : Decidable (pendingWF l) := by
  unfold pendingWF; infer_instance

/-- Well-formedness of a broker's partition table: every stored partition
carries the topic and index it is keyed under (as lazy creation via
`newPartition topic partition` guarantees). -/
def brokerWF (b : BrokerState) : Prop :=
  ∀ e ∈ b.parts, ∀ e2 ∈ e.2, e2.2.topic = e.1 ∧ e2.2.index = e2.1

instance (b : BrokerState) : Decidable (brokerWF b) := by
  unfold brokerWF; infer_instance

/-! ## Concrete fixtures used by witness and counterexample theorems -/

/-- Sample message. -/
def msgW3 : Message := ⟨"m1", "hello", 0, "t", 0⟩

/-- Partition holding one pending record dispatched to group `g1`. -/
def pW3 : PartitionState := ⟨"t", 0, [], [("m1", ⟨msgW3, 10, "g1"⟩)], "", 30, false⟩

/-- Broker hosting `pW3` as partition 0 of topic `t`. -/
def bW3 : BrokerState := ⟨[("t", 1)], [("t", [(0, pW3)])], 30⟩

/-- Empty partition for the enqueue witness. -/
def pW4 : PartitionState := ⟨"t", 0, [], [], "", 30, false⟩

/-- Sample message for the enqueue witness. -/
def msgW4 : Message := ⟨"m4", "x", 0, "t", 0⟩

/-- Sample message for the fetch witness. -/
def msgW5 : Message := ⟨"m5", "data5", 0, "t", 0⟩

/-- Partition holding one queued message. -/
def pW5 : PartitionState := ⟨"t", 0, [msgW5], [], "", 30, false⟩

/-- Fresh broker knowing topic `t` with 2 partitions and no partition
created yet. -/
def bW1 : BrokerState := ⟨[("t", 2)], [("t", [])], 30⟩

/-- Message with an expired pending record. -/
def msgW2 : Message := ⟨"m2", "late", 0, "t", 0⟩

/-- Partition whose only pending record expired at instant 5 (scanned at
instant 9). -/
def pW2 : PartitionState := ⟨"t", 0, [], [("m2", ⟨msgW2, 5, "g1"⟩)], "L", 30, false⟩

/-- Constant digest standing in for SHA-512 in concrete ring fixtures (any
byte function works for the ring-structure theorems, which hold for every
digest). -/
def dW8 : String → List Nat := fun _ => [0, 0, 0, 0]

/-- Digest whose first byte tracks the key length (used to spread fixture
positions). -/
def dW7 : String → List Nat := fun s => [s.data.length, 3, 5, 7]

end MQ

/-! ## Consistent-hash ring (package consistenthash) -/

namespace CHash

/-- Combination of the first four digest bytes into a 32-bit position
(`uint32(h[0])<<24 | uint32(h[1])<<16 | uint32(h[2])<<8 | uint32(h[3])`).
The digest itself (`crypto/sha512.Sum512`) is kept abstract as a byte
sequence `d key`; `% 256` casts each entry to a byte. -/
def hashBytes (d : String → List Nat) (key : String) : Nat :=
  ((d key).getD 0 0 % 256) <<< 24 |||
    ((d key).getD 1 0 % 256) <<< 16 |||
    ((d key).getD 2 0 % 256) <<< 8 |||
    ((d key).getD 3 0 % 256)

/-- Virtual-node label (`fmt.Sprintf("%s:%d", broker, i)`). -/
def vnodeKey (b : String) (i : Nat) : String := b ++ ":" ++ MQ.natStr i

/-- Position/endpoint pairs generated by `buildRing`'s nested loops, in
loop order. -/
def ringPairs (d : String → List Nat) (brokers : List String) (v : Nat) :
    List (Nat × String) :=
  brokers.flatMap (fun b => (List.range v).map (fun i => (hashBytes d (vnodeKey b i), b)))

/-- Ring state (struct `ConsistentHash`). -/
structure Ring where
  ring : List (Nat × String)
  sortedHashes : List Nat
  brokers : List String
  virtualNodes : Nat
deriving DecidableEq, Repr

/-- Ring construction (`ConsistentHash.buildRing`): place every virtual
node in the hash-to-endpoint map (later writes win on collision), collect
the positions and sort them. -/
def buildRing (d : String → List Nat) (brokers : List String) (v : Nat) : Ring :=
  { ring := (ringPairs d brokers v).foldl (fun acc e => MQ.alInsert acc e.1 e.2) []
    sortedHashes := List.insertionSort (· ≤ ·) ((ringPairs d brokers v).map Prod.fst)
    brokers := brokers
    virtualNodes := v }

/-- Ring constructor (`NewConsistentHash`). -/
def newRing (d : String → List Nat) (brokers : List String) (v : Nat) : Ring :=
  buildRing d brokers v

/-- Functional contract of `sort.Search(len(l), fun i => l[i] >= h)`: index
of the first entry at or above `h` (length when none), rendered as the
length of the longest all-below prefix. -/
def searchGe (l : List Nat) (h : Nat) : Nat :=
  (l.takeWhile (fun x => decide (x < h))).length

/-- Routing key for a topic/partition pair
(`fmt.Sprintf("%s-partition-%d", topic, partition)`). -/
def topicPartitionKey (topic : String) (part : Nat) : String :=
  topic ++ "-partition-" ++ MQ.natStr part

/-- Ring lookup (`ConsistentHash.GetBrokerByTopicPartition`): hash the
routing key, binary-search the sorted positions for the first one at or
above the hash, wrap to index 0 when there is none, and return the
endpoint the ring map places there. -/
def getBrokerByTopicPartition (d : String → List Nat) (ch : Ring)
    (topic : String) (part : Nat) : String :=
  if ch.brokers = [] then ""
  else
    let h := hashBytes d (topicPartitionKey topic part)
    let idx := searchGe ch.sortedHashes h
    let idx2 := if idx = ch.sortedHashes.length then 0 else idx
    (MQ.alLookup ch.ring (ch.sortedHashes.getD idx2 0)).getD ""

/-- Endpoint addition (`ConsistentHash.AddBroker`): a no-op when already
present, otherwise append and rebuild the ring. -/
def addBroker (d : String → List Nat) (ch : Ring) (b : String) : Ring :=
  if b ∈ ch.brokers then ch
  else buildRing d (ch.brokers ++ [b]) ch.virtualNodes

/-- First-occurrence removal (the loop of `RemoveBroker` with its `break`). -/
def removeFirst : List String → String → List String
  | [], _ => []
  | x :: xs, b => if x = b then xs else x :: removeFirst xs b

/-- Endpoint removal (`ConsistentHash.RemoveBroker`): drop the first
occurrence and rebuild the ring. -/
def removeBroker (d : String → List Nat) (ch : Ring) (b : String) : Ring :=
  buildRing d (removeFirst ch.brokers b) ch.virtualNodes

end CHash

/-! ## Routing proxy (services/msg_queue_proxy, source listing in
helm/telemetry-stack/PROXY-CONFIG.md) -/

namespace Proxy

/-- Proxy state (struct `SmartProxy`): the discovered endpoints, the health
map and the ring. -/
structure SmartProxy where
  brokerEndpoints : List String
  healthy : List (String × Bool)
  ring : CHash.Ring
deriving DecidableEq, Repr

/-- Health-map lookup (`sp.healthyBrokers[e]`; a missing key reads as the
zero value `false`). -/
def healthyLookup (sp : SmartProxy) (e : String) : Bool :=
  (MQ.alLookup sp.healthy e).getD false

/-- Broker selection (`SmartProxy.getBrokerForTopicPartition`): consult the
ring; when the ring's endpoint is unhealthy scan the endpoint list for the
first healthy one; when the scan finds none fall through to the ring's
(unhealthy) endpoint. -/
def getBrokerForTopicPartition (d : String → List Nat) (sp : SmartProxy)
    (topic : String) (part : Nat) : String :=
  let broker := CHash.getBrokerByTopicPartition d sp.ring topic part
  if healthyLookup sp broker = false then
    match sp.brokerEndpoints.find? (fun e => healthyLookup sp e) with
    | some e2 => e2
    | none => broker
  else broker

/-- Outcome of a proxy handler: an immediate reply, or forwarding to a
broker. -/
inductive ProxyResult where
  | reply (status : Nat) (body : String)
  | forward (endpoint : String)
deriving DecidableEq, Repr

/-- Routing decision of `SmartProxy.produceHandler` (method check elided;
the model covers the `POST` path): validate the query parameters, select
the broker, reply 503 only when selection returns the empty string, and
otherwise forward. -/
def proxyProduceRoute (d : String → List Nat) (sp : SmartProxy)
    (topic partStr : String) : ProxyResult :=
  if topic = "" ∨ partStr = "" then ProxyResult.reply 400 "topic and partition required"
  else
    match MQ.strconvAtoi partStr with
    | none => ProxyResult.reply 400 "invalid partition"
    | some part =>
      let target := getBrokerForTopicPartition d sp topic part
      if target = "" then ProxyResult.reply 503 "no healthy brokers available"
      else ProxyResult.forward target

/-- Proxy with a single, unhealthy broker (counterexample fixture). -/
def spW8 : SmartProxy := ⟨["b0"], [("b0", false)], CHash.buildRing MQ.dW8 ["b0"] 1⟩

/-- Proxy with two brokers where the ring selects the unhealthy one
(witness fixture: with a constant digest the later virtual node wins the
collision, so the ring maps every key to `b1`). -/
def spW8b : SmartProxy :=
  ⟨["b0", "b1"], [("b0", true), ("b1", false)], CHash.buildRing MQ.dW8 ["b0", "b1"] 1⟩

end Proxy

/-! # Theorems -/

namespace MQ

/-! ## Association-list lemmas -/

theorem alLookup_alErase_self {κ α : Type} [DecidableEq κ]
    (l : List (κ × α)) (k : κ) : alLookup (alErase l k) k = none := by
  induction l with
  | nil => rfl
  | cons e rest ih =>
    by_cases h : e.1 = k <;> simp [alErase, h, alLookup, ih]

theorem alLookup_alErase_ne {κ α : Type} [DecidableEq κ]
    (l : List (κ × α)) (k k' : κ) (hk : k' ≠ k) :
    alLookup (alErase l k) k' = alLookup l k' := by
  induction l with
  | nil => rfl
  | cons e rest ih =>
    by_cases h : e.1 = k
    · have h2 : ¬ e.1 = k' := by rw [h]; exact fun h3 => hk h3.symm
      have he : alErase (e :: rest) k = alErase rest k := by simp [alErase, h]
      rw [he, ih]
      simp [alLookup, h2]
    · have he : alErase (e :: rest) k = e :: alErase rest k := by simp [alErase, h]
      rw [he]
      by_cases h2 : e.1 = k'
      · simp [alLookup, h2]
      · simp [alLookup, h2, ih]

theorem alLookup_alInsert_self {κ α : Type} [DecidableEq κ]
    (l : List (κ × α)) (k : κ) (v : α) : alLookup (alInsert l k v) k = some v := by
  simp [alInsert, alLookup]

theorem alLookup_alInsert_ne {κ α : Type} [DecidableEq κ]
    (l : List (κ × α)) (k k' : κ) (v : α) (hk : k' ≠ k) :
    alLookup (alInsert l k v) k' = alLookup l k' := by
  have h : ¬ k = k' := fun h2 => hk h2.symm
  simp [alInsert, alLookup, h, alLookup_alErase_ne l k k' hk]

theorem alLookup_mem {κ α : Type} [DecidableEq κ]
    (l : List (κ × α)) (k : κ) (v : α) (h : alLookup l k = some v) :
    (k, v) ∈ l := by
  induction l with
  | nil => simp [alLookup] at h
  | cons e rest ih =>
    rcases e with ⟨a, w⟩
    by_cases h1 : a = k
    · subst h1
      have hw : w = v := by simpa [alLookup] using h
      subst hw
      exact List.mem_cons_self _ _
    · have h2 : alLookup rest k = some v := by simpa [alLookup, h1] using h
      exact List.mem_cons_of_mem _ (ih h2)

theorem alLookup_of_mem_nodup {κ α : Type} [DecidableEq κ]
    (l : List (κ × α)) (e : κ × α) (he : e ∈ l)
    (hnd : (l.map Prod.fst).Nodup) : alLookup l e.1 = some e.2 := by
  induction l with
  | nil => cases he
  | cons f rest ih =>
    rcases List.mem_cons.mp he with h | h
    · subst h; simp [alLookup]
    · have hne : f.1 ≠ e.1 := by
        intro hfe
        have : e.1 ∈ rest.map Prod.fst := List.mem_map_of_mem Prod.fst h
        simp only [List.map_cons, List.nodup_cons] at hnd
        exact hnd.1 (hfe ▸ this)
      have hnd2 : (rest.map Prod.fst).Nodup := by
        simp only [List.map_cons, List.nodup_cons] at hnd
        exact hnd.2
      simp [alLookup, hne, ih h hnd2]

/-! ## Claim theorems: ack, enqueue, monitor period -/

/-- C3: `ack(id, group)` succeeds, removing the pending record, exactly
when the id is pending under the same group; in every other case it
returns `false` leaving the partition state untouched, and the `/ack`
handler then replies 400. -/
theorem claim_C3 (p : PartitionState) (i g : String) :
    ((ack p i g).2 = true ↔ ∃ pd, alLookup p.pending i = some pd ∧ pd.group = g)
    ∧ ((ack p i g).2 = true →
        (ack p i g).1 = { p with pending := alErase p.pending i } ∧
          alLookup (ack p i g).1.pending i = none)
    ∧ ((ack p i g).2 = false → (ack p i g).1 = p)
    ∧ (∀ (b : BrokerState) (topic partStr : String) (part : Nat),
        topic ≠ "" → partStr ≠ "" → g ≠ "" → i ≠ "" →
        strconvAtoi partStr = some part →
        getPartitionExisting b topic part = Except.ok p →
        (ack p i g).2 = false →
        (ackHandler b topic partStr g i).2.status = 400) := by
  have hmain :
      ((ack p i g).2 = true ↔ ∃ pd, alLookup p.pending i = some pd ∧ pd.group = g)
      ∧ ((ack p i g).2 = true →
          (ack p i g).1 = { p with pending := alErase p.pending i } ∧
            alLookup (ack p i g).1.pending i = none)
      ∧ ((ack p i g).2 = false → (ack p i g).1 = p) := by
    unfold ack
    rcases hl : alLookup p.pending i with _ | pd
    · simp [hl]
    · by_cases hg : pd.group = g
      · simp [hl, hg, alLookup_alErase_self]
      · simp only [hl]
        refine ⟨?_, ?_, ?_⟩
        · constructor
          · intro hfalse
            exfalso
            simp [hg] at hfalse
          · rintro ⟨pd2, h2, h3⟩
            cases h2
            exact absurd h3 hg
        · intro hfalse
          exfalso
          simp [hg] at hfalse
        · intro _
          simp [hg]
  refine ⟨hmain.1, hmain.2.1, hmain.2.2, ?_⟩
  intro b topic partStr part ht hp hg hi hatoi hget hfalse
  unfold ackHandler
  rcases hack : ack p i g with ⟨p2, ok⟩
  rw [hack] at hfalse
  simp only at hfalse
  subst hfalse
  simp [ht, hp, hg, hi, hatoi, hget, hack]

/-- C4: `enqueue` persists first — a failed log write leaves the queue
unchanged and reports the error; a successful write followed by a full
queue reports `queue full ...` while the appended log line remains; and
otherwise both the log append and the tail push take effect. -/
theorem claim_C4 (writeOk : Bool) (p : PartitionState) (m : Message) :
    (writeOk = false → enqueue writeOk p m = (p, Except.error "persist failed"))
    ∧ (writeOk = true → p.queue.length < queueCapacity →
        enqueue writeOk p m =
          ({ p with log := p.log ++ encMessage m ++ "\n", queue := p.queue ++ [m] },
           Except.ok ()))
    ∧ (writeOk = true → ¬ p.queue.length < queueCapacity →
        ∃ sfx,
          enqueue writeOk p m =
            ({ p with log := p.log ++ encMessage m ++ "\n" },
             Except.error ("queue full" ++ sfx))) := by
  refine ⟨?_, ?_, ?_⟩
  · intro h; subst h; rfl
  · intro h hlen; subst h
    simp [enqueue, persist, hlen]
  · intro h hlen; subst h
    refine ⟨" (" ++ natStr p.queue.length ++ " messages)", ?_⟩
    have hfull : enqueue true p m =
        (persist p m,
         Except.error ("queue full (" ++ natStr p.queue.length ++ " messages)")) := by
      simp [enqueue, persist, hlen]
    rw [hfull]
    have hstate : persist p m = { p with log := p.log ++ encMessage m ++ "\n" } := rfl
    rw [hstate]
    have hstr : ("queue full (" ++ natStr p.queue.length ++ " messages)" : String) =
        "queue full" ++ (" (" ++ natStr p.queue.length ++ " messages)") := by
      rw [show ("queue full (" : String) = "queue full" ++ " (" from rfl]
      rw [String.append_assoc, String.append_assoc, String.append_assoc]
    rw [hstr]

/-- C6: the monitor's scan interval (50 seconds) is NOT smaller than the
default visibility timeout (30 seconds); the code violates the spec's
requirement (tick smaller than the timeout, recommended at most half of
it), which the spec itself flags as a likely bug in the source. -/
theorem claim_C6 :
    monitorTickSeconds = 50 ∧ defaultVisibilityTimeoutSeconds = 30 ∧
    ¬ monitorTickSeconds < defaultVisibilityTimeoutSeconds ∧
    ¬ monitorTickSeconds ≤ defaultVisibilityTimeoutSeconds / 2 := by
  decide

/-! ## Monitor-step bookkeeping lemmas -/

theorem requeueStep_pending (now : Nat) (st : PartitionState)
    (e : String × PendingRec) :
    (requeueStep now st e).pending =
      if e.2.deadline < now then alErase st.pending e.1 else st.pending := by
  unfold requeueStep
  split
  · dsimp only
    split <;> rfl
  · rfl

theorem requeueStep_log (now : Nat) (st : PartitionState) (e : String × PendingRec) :
    (requeueStep now st e).log = st.log := by
  unfold requeueStep
  split
  · dsimp only
    split <;> rfl
  · rfl

theorem requeueStep_closed (now : Nat) (st : PartitionState) (e : String × PendingRec) :
    (requeueStep now st e).closed = st.closed := by
  unfold requeueStep
  split
  · dsimp only
    split <;> rfl
  · rfl

theorem requeueStep_visTO (now : Nat) (st : PartitionState) (e : String × PendingRec) :
    (requeueStep now st e).visTO = st.visTO := by
  unfold requeueStep
  split
  · dsimp only
    split <;> rfl
  · rfl

theorem scan_log (now : Nat) (l : List (String × PendingRec)) (st : PartitionState) :
    (l.foldl (requeueStep now) st).log = st.log := by
  induction l generalizing st with
  | nil => rfl
  | cons e rest ih => rw [List.foldl_cons, ih, requeueStep_log]

theorem scan_closed (now : Nat) (l : List (String × PendingRec)) (st : PartitionState) :
    (l.foldl (requeueStep now) st).closed = st.closed := by
  induction l generalizing st with
  | nil => rfl
  | cons e rest ih => rw [List.foldl_cons, ih, requeueStep_closed]

theorem scan_erased (now : Nat) (l : List (String × PendingRec))
    (st : PartitionState) (i : String)
    (hst : alLookup st.pending i = none) :
    alLookup (l.foldl (requeueStep now) st).pending i = none := by
  induction l generalizing st with
  | nil => exact hst
  | cons e rest ih =>
    rw [List.foldl_cons]
    apply ih
    rw [requeueStep_pending]
    split
    · rcases e with ⟨j, pd⟩
      by_cases hj : i = j
      · subst hj; exact alLookup_alErase_self _ _
      · rw [alLookup_alErase_ne _ _ _ hj]; exact hst
    · exact hst

theorem scan_keep (now : Nat) (l : List (String × PendingRec))
    (st : PartitionState) (i : String) (e : PendingRec)
    (hst : alLookup st.pending i = some e)
    (hl : ∀ pd, (i, pd) ∈ l → pd = e)
    (hnd : ¬ e.deadline < now) :
    alLookup (l.foldl (requeueStep now) st).pending i = some e := by
  induction l generalizing st with
  | nil => exact hst
  | cons f rest ih =>
    rw [List.foldl_cons]
    apply ih
    · rcases f with ⟨j, pd⟩
      by_cases hj : j = i
      · subst hj
        have hpd : pd = e := hl pd (List.mem_cons_self _ _)
        subst hpd
        rw [requeueStep_pending]
        simp only [if_neg hnd]
        exact hst
      · rw [requeueStep_pending]
        split
        · rw [alLookup_alErase_ne _ _ _ (fun h => hj h.symm)]
          exact hst
        · exact hst
    · intro pd2 hmem
      exact hl pd2 (List.mem_cons_of_mem _ hmem)

/-! ## Claim C5: fetchAndTrack and pending-set tracking -/

/-- C5: a successful `fetchAndTrack(group)` dequeues the head message and
records `(message, now + visibility-timeout, group)` in the pending set
under its id; an empty poll changes nothing and reports
`no messages available`; a closed partition reports the terminal
`partition closed` error; and a pending record persists across enqueues,
fetches, acks for other ids or with the wrong group, and monitor scans
before its deadline. -/
theorem claim_C5 (now : Nat) (p : PartitionState) (g : String) :
    (p.closed = true → fetchAndTrack now p g = (p, Except.error "partition closed"))
    ∧ (p.closed = false → p.queue = [] →
        fetchAndTrack now p g = (p, Except.error "no messages available"))
    ∧ (∀ m rest, p.closed = false → p.queue = m :: rest →
        (fetchAndTrack now p g).2 = Except.ok m ∧
        (fetchAndTrack now p g).1.queue = rest ∧
        alLookup (fetchAndTrack now p g).1.pending m.id =
          some ⟨m, now + p.visTO, g⟩)
    ∧ (∀ i e, alLookup p.pending i = some e →
        (∀ wk m2, alLookup ((enqueue wk p m2).1).pending i = some e)
        ∧ (∀ g2, (alLookup ((fetchAndTrack now p g2).1).pending i).isSome = true)
        ∧ (∀ j g2, j ≠ i → alLookup ((ack p j g2).1).pending i = some e)
        ∧ (∀ g2, g2 ≠ e.group → alLookup ((ack p i g2).1).pending i = some e)
        ∧ (∀ now2, pendingWF p.pending → ¬ e.deadline < now2 →
            alLookup ((monitorScan now2 p).pending) i = some e)) := by
  refine ⟨?_, ?_, ?_, ?_⟩
  · intro hc
    unfold fetchAndTrack
    simp [hc]
  · intro hc hq
    unfold fetchAndTrack
    simp [hc, hq]
  · intro m rest hc hq
    unfold fetchAndTrack
    simp [hc, hq, alLookup_alInsert_self]
  · intro i e he
    refine ⟨?_, ?_, ?_, ?_, ?_⟩
    · intro wk m2
      have hpend : ((enqueue wk p m2).1).pending = p.pending := by
        cases wk
        · rfl
        · unfold enqueue persist
          dsimp only
          split
          · rfl
          · split <;> rfl
      rw [hpend, he]
    · intro g2
      unfold fetchAndTrack
      cases hc : p.closed
      · cases hq : p.queue with
        | nil => simp [hc, hq, he]
        | cons m rest =>
          by_cases hm : i = m.id
          · subst hm
            simp [hc, hq, alLookup_alInsert_self]
          · simp [hc, hq, alLookup_alInsert_ne _ _ _ _ hm, he]
      · simp [hc, he]
    · intro j g2 hj
      unfold ack
      cases hlj : alLookup p.pending j with
      | none => exact he
      | some pd =>
        dsimp only
        by_cases hgg : pd.group ≠ g2
        · rw [if_pos hgg]
          exact he
        · rw [if_neg hgg]
          show alLookup (alErase p.pending j) i = some e
          rw [alLookup_alErase_ne _ _ _ (fun h => hj h.symm)]
          exact he
    · intro g2 hg2
      unfold ack
      rw [he]
      have : e.group ≠ g2 := fun h => hg2 h.symm
      simp [this]
      exact he
    · intro now2 hwf hnd
      unfold monitorScan
      apply scan_keep now2 p.pending p i e he _ hnd
      intro pd hmem
      have h2 : alLookup p.pending i = some pd :=
        alLookup_of_mem_nodup p.pending (i, pd) hmem hwf.1
      rw [he] at h2
      injection h2 with h3
      exact h3.symm

end MQ

namespace MQ

/-! ## Produce-path inversion lemmas -/

theorem enqueue_ok_inv (wk : Bool) (p : PartitionState) (m : Message)
    (p2 : PartitionState) (u : Unit)
    (h : enqueue wk p m = (p2, Except.ok u)) :
    wk = true ∧ p.queue.length < queueCapacity ∧
    p2 = { p with log := p.log ++ encMessage m ++ "\n", queue := p.queue ++ [m] } := by
  cases wk
  · exact absurd h (by simp [enqueue])
  · have key : enqueue true p m =
        (if (persist p m).queue.length < queueCapacity then
          ({ persist p m with queue := (persist p m).queue ++ [m] }, Except.ok ())
        else
          (persist p m,
           Except.error ("queue full (" ++ natStr (persist p m).queue.length ++ " messages)"))) := rfl
    rw [key] at h
    by_cases hlen : (persist p m).queue.length < queueCapacity
    · rw [if_pos hlen] at h
      have h1 : ({ persist p m with queue := (persist p m).queue ++ [m] } : PartitionState) = p2 :=
        congrArg Prod.fst h
    
      exact ⟨rfl, hlen, h1.symm⟩
    · rw [if_neg hlen] at h
      have h2 := congrArg Prod.snd h
      simp at h2

theorem getPartitionForProduce_parts (b : BrokerState) (topic : String)
    (part : Nat) (p : PartitionState)
    (h : getPartitionForProduce b topic part = Except.ok p) :
    ∃ pm, alLookup b.parts topic = some pm := by
  unfold getPartitionForProduce at h
  cases hpm : alLookup b.parts topic with
  | none => rw [hpm] at h; cases h
  | some pm => exact ⟨pm, rfl⟩

theorem getPartitionForProduce_fields (b : BrokerState) (topic : String)
    (part : Nat) (p : PartitionState) (hwf : brokerWF b)
    (h : getPartitionForProduce b topic part = Except.ok p) :
    p.topic = topic ∧ p.index = part := by
  unfold getPartitionForProduce at h
  cases hpm : alLookup b.parts topic with
  | none => rw [hpm] at h; cases h
  | some pm =>
    rw [hpm] at h
    dsimp only at h
    cases hp : alLookup pm part with
    | some p0 =>
      rw [hp] at h
      have hpp : p0 = p := by
        injection h
      subst hpp
      have hmem1 : (topic, pm) ∈ b.parts := alLookup_mem _ _ _ hpm
      have hmem2 : (part, p0) ∈ pm := alLookup_mem _ _ _ hp
      exact hwf (topic, pm) hmem1 (part, p0) hmem2
    | none =>
      rw [hp] at h
      dsimp only at h
      cases hmax : alLookup b.topics topic with
      | none => rw [hmax] at h; cases h
      | some maxP =>
        rw [hmax] at h
        dsimp only at h
        by_cases hge : part ≥ maxP
        · rw [if_pos hge] at h; cases h
        · rw [if_neg hge] at h
          have : newPartition topic part b.visTO = p := by injection h
          subst this
          exact ⟨rfl, rfl⟩

theorem getPartitionForProduce_log (b : BrokerState) (topic : String)
    (part : Nat) (p : PartitionState)
    (h : getPartitionForProduce b topic part = Except.ok p) :
    logBefore b topic part = p.log := by
  unfold logBefore
  rw [h]

/-! ## Claim C1: durability of publish -/

/-- C1: whenever the produce handler replies 200, the log write succeeded
and the partition addressed by the request — found in the updated broker
state under `(topic, partition)` with its log file
`<storage>/<topic>/partition-<n>.log` — carries the message's JSON encoding
appended as one newline-terminated line; the enqueue that produced this
state persists before pushing, so the line precedes the response. -/
theorem claim_C1 (b : BrokerState) (writeOk : Bool) (newID : String)
    (now : Nat) (topic partStr body : String) (hwf : brokerWF b) :
    ((produceHandler b writeOk newID now topic partStr body).2).status = 200 →
    writeOk = true ∧
    ∃ part pm2 p2,
      strconvAtoi partStr = some part ∧
      alLookup (produceHandler b writeOk newID now topic partStr body).1.parts
        topic = some pm2 ∧
      alLookup pm2 part = some p2 ∧
      p2.topic = topic ∧ p2.index = part ∧
      p2.log = logBefore b topic part ++
        encMessage ⟨newID, brokerParseBody body, now, topic, part⟩ ++ "\n" ∧
      logFilePath p2.topic p2.index =
        "./data/" ++ topic ++ "/partition-" ++ natStr part ++ ".log" := by
  intro hst
  by_cases h0 : topic = "" ∨ partStr = ""
  · have heval : produceHandler b writeOk newID now topic partStr body =
        (b, ⟨400, "topic and partition required"⟩) := by
      unfold produceHandler
      rw [if_pos h0]
    rw [heval] at hst
    dsimp only at hst
    exact absurd hst (by omega)
  · cases hatoi : strconvAtoi partStr with
    | none =>
      have heval : produceHandler b writeOk newID now topic partStr body =
          (b, ⟨400, "bad partition"⟩) := by
        unfold produceHandler
        rw [if_neg h0, hatoi]
      rw [heval] at hst
      dsimp only at hst
      exact absurd hst (by omega)
    | some part =>
      cases hget : getPartitionForProduce b topic part with
      | error e =>
        have heval : produceHandler b writeOk newID now topic partStr body =
            (b, ⟨400, e⟩) := by
          unfold produceHandler
          rw [if_neg h0, hatoi]
          dsimp only
          rw [hget]
        rw [heval] at hst
        dsimp only at hst
        exact absurd hst (by omega)
      | ok p =>
        rcases henq : enqueue writeOk p ⟨newID, brokerParseBody body, now, topic, part⟩
          with ⟨p2, r⟩
        cases r with
        | error e2 =>
          have heval : produceHandler b writeOk newID now topic partStr body =
              (setPartition b topic part p2, ⟨500, "enqueue failed: " ++ e2⟩) := by
            unfold produceHandler
            rw [if_neg h0, hatoi]
            dsimp only
            rw [hget]
            dsimp only
            rw [henq]
          rw [heval] at hst
          dsimp only at hst
          exact absurd hst (by omega)
        | ok u =>
          have heval : produceHandler b writeOk newID now topic partStr body =
              (setPartition b topic part p2,
               ⟨200, "\x7b\"id\":\"" ++ newID ++ "\"\x7d"⟩) := by
            unfold produceHandler
            rw [if_neg h0, hatoi]
            dsimp only
            rw [hget]
            dsimp only
            rw [henq]
          obtain ⟨hwk, hlen, hp2⟩ := enqueue_ok_inv _ _ _ _ _ henq
          obtain ⟨pm, hpm⟩ := getPartitionForProduce_parts b topic part p hget
          obtain ⟨htop, hidx⟩ := getPartitionForProduce_fields b topic part p hwf hget
          refine ⟨hwk, part, alInsert pm part p2, p2, rfl, ?_, ?_, ?_, ?_, ?_, ?_⟩
          · rw [heval]
            show alLookup (setPartition b topic part p2).parts topic = _
            unfold setPartition
            rw [hpm]
            exact alLookup_alInsert_self _ _ _
          · exact alLookup_alInsert_self _ _ _
          · rw [hp2]; exact htop
          · rw [hp2]; exact hidx
          · rw [hp2]
            show p.log ++ encMessage ⟨newID, brokerParseBody body, now, topic, part⟩ ++ "\n" = _
            rw [getPartitionForProduce_log b topic part p hget]
          · rw [hp2]
            show logFilePath p.topic p.index = _
            rw [htop, hidx]
            rfl

/-! ## Witnesses for C3, C4, C5 -/

/-- Witness for C3 at a concrete wrong-group ack: the handler replies 400. -/
theorem claim_C3_witness : (ackHandler bW3 "t" "0" "g2" "m1").2.status = 400 :=
  (claim_C3 pW3 "m1" "g2").2.2.2 bW3 "t" "0" 0 (by decide) (by decide)
    (by decide) (by decide) (by decide) rfl rfl

/-- Witness for C4 at a concrete successful enqueue. -/
theorem claim_C4_witness :
    enqueue true pW4 msgW4 =
      ({ pW4 with log := pW4.log ++ encMessage msgW4 ++ "\n",
                  queue := pW4.queue ++ [msgW4] }, Except.ok ()) :=
  (claim_C4 true pW4 msgW4).2.1 rfl (by decide)

/-- Witness for C5 at a concrete fetch: the head message is returned and
tracked in the pending set with deadline `now + visTO`. -/
theorem claim_C5_witness :
    (fetchAndTrack 7 pW5 "g1").2 = Except.ok msgW5 ∧
    (fetchAndTrack 7 pW5 "g1").1.queue = [] ∧
    alLookup (fetchAndTrack 7 pW5 "g1").1.pending msgW5.id =
      some ⟨msgW5, 7 + pW5.visTO, "g1"⟩ :=
  (claim_C5 7 pW5 "g1").2.2.1 msgW5 [] rfl rfl

/-- Witness for C1 at a concrete produce request creating partition 0 of
topic `t` lazily. -/
theorem claim_C1_witness :
    ((produceHandler bW1 true "id1" 3 "t" "0" "\x7b\"payload\":\"pp\"\x7d").2).status = 200 ∧
    (true = true ∧
      ∃ part pm2 p2,
        strconvAtoi "0" = some part ∧
        alLookup (produceHandler bW1 true "id1" 3 "t" "0" "\x7b\"payload\":\"pp\"\x7d").1.parts
          "t" = some pm2 ∧
        alLookup pm2 part = some p2 ∧
        p2.topic = "t" ∧ p2.index = part ∧
        p2.log = logBefore bW1 "t" part ++
          encMessage ⟨"id1", brokerParseBody "\x7b\"payload\":\"pp\"\x7d", 3, "t", part⟩ ++ "\n" ∧
        logFilePath p2.topic p2.index =
          "./data/" ++ "t" ++ "/partition-" ++ natStr part ++ ".log") :=
  ⟨by decide,
   claim_C1 bW1 true "id1" 3 "t" "0" "\x7b\"payload\":\"pp\"\x7d" (by decide) (by decide)⟩

end MQ

namespace MQ

/-! ## Monitor scan: queue characterization -/

theorem expiredEntries_cons_pos (now : Nat) (e : String × PendingRec)
    (rest : List (String × PendingRec)) (hd : e.2.deadline < now) :
    expiredEntries now (e :: rest) = e :: expiredEntries now rest := by
  simp [expiredEntries, List.filter_cons, hd]

theorem expiredEntries_cons_neg (now : Nat) (e : String × PendingRec)
    (rest : List (String × PendingRec)) (hd : ¬ e.2.deadline < now) :
    expiredEntries now (e :: rest) = expiredEntries now rest := by
  simp [expiredEntries, List.filter_cons, hd]

theorem requeueStep_push (now : Nat) (st : PartitionState) (e : String × PendingRec)
    (hd : e.2.deadline < now) (hlen : st.queue.length < queueCapacity) :
    requeueStep now st e =
      { st with pending := alErase st.pending e.1, queue := st.queue ++ [e.2.msg] } := by
  unfold requeueStep
  rw [if_pos hd]
  dsimp only
  rw [if_pos hlen]

theorem requeueStep_skip (now : Nat) (st : PartitionState) (e : String × PendingRec)
    (hd : ¬ e.2.deadline < now) : requeueStep now st e = st := by
  unfold requeueStep
  rw [if_neg hd]

theorem scan_queue_room (now : Nat) (l : List (String × PendingRec))
    (st : PartitionState)
    (h : st.queue.length + (expiredEntries now l).length ≤ queueCapacity) :
    (l.foldl (requeueStep now) st).queue = st.queue ++ expiredMsgs now l := by
  induction l generalizing st with
  | nil => simp [expiredMsgs, expiredEntries]
  | cons e rest ih =>
    by_cases hd : e.2.deadline < now
    · have hcons := expiredEntries_cons_pos now e rest hd
      have hlen : st.queue.length < queueCapacity := by
        rw [hcons] at h
        simp only [List.length_cons] at h
        omega
      rw [List.foldl_cons, requeueStep_push now st e hd hlen]
      rw [ih { st with pending := alErase st.pending e.1, queue := st.queue ++ [e.2.msg] } (by
        show (st.queue ++ [e.2.msg]).length + (expiredEntries now rest).length ≤ queueCapacity
        rw [List.length_append]
        rw [hcons] at h
        simp only [List.length_cons, List.length_nil] at h ⊢
        omega)]
      show (st.queue ++ [e.2.msg]) ++ expiredMsgs now rest = _
      rw [List.append_assoc]
      have : expiredMsgs now (e :: rest) = e.2.msg :: expiredMsgs now rest := by
        simp [expiredMsgs, hcons]
      rw [this]
      rfl
    · rw [List.foldl_cons, requeueStep_skip now st e hd]
      have hcons := expiredEntries_cons_neg now e rest hd
      rw [hcons] at h
      rw [ih _ h]
      have : expiredMsgs now (e :: rest) = expiredMsgs now rest := by
        simp [expiredMsgs, hcons]
      rw [this]

theorem scan_queue_full (now : Nat) (l : List (String × PendingRec))
    (st : PartitionState) (h : queueCapacity ≤ st.queue.length) :
    (l.foldl (requeueStep now) st).queue = st.queue := by
  induction l generalizing st with
  | nil => rfl
  | cons e rest ih =>
    have hq : (requeueStep now st e).queue = st.queue := by
      by_cases hd : e.2.deadline < now
      · unfold requeueStep
        rw [if_pos hd]
        dsimp only
        rw [if_neg (by omega : ¬ st.queue.length < queueCapacity)]
      · rw [requeueStep_skip now st e hd]
    rw [List.foldl_cons]
    have h2 : queueCapacity ≤ (requeueStep now st e).queue.length := by rw [hq]; exact h
    rw [ih _ h2, hq]

/-! ## Iterated fetch after a scan -/

theorem fetchN_spec (now2 : Nat) (g : String) (q : PartitionState)
    (hq : q.closed = false) (k : Nat) :
    (fetchN now2 g q k).queue = q.queue.drop k ∧
      (fetchN now2 g q k).closed = false := by
  induction k with
  | zero => exact ⟨rfl, hq⟩
  | succ k ih =>
    obtain ⟨hq1, hc1⟩ := ih
    have hdrop : q.queue.drop (k + 1) = (q.queue.drop k).drop 1 := by
      rw [List.drop_drop]
    constructor
    · show ((fetchAndTrack now2 (fetchN now2 g q k) g).1).queue = _
      unfold fetchAndTrack
      rw [hc1]
      cases hqq : (fetchN now2 g q k).queue with
      | nil =>
        simp only [Bool.false_eq_true, if_false]
        rw [hqq, hdrop, ← hq1, hqq]
        rfl
      | cons m rest =>
        simp only [Bool.false_eq_true, if_false]
        rw [hdrop, ← hq1, hqq]
        rfl
    · show ((fetchAndTrack now2 (fetchN now2 g q k) g).1).closed = false
      unfold fetchAndTrack
      rw [hc1]
      cases hqq : (fetchN now2 g q k).queue with
      | nil => simp [hc1]
      | cons m rest => simp [hc1]

theorem fetch_delivers (now2 : Nat) (g : String) (q : PartitionState)
    (hq : q.closed = false) (xs ys : List Message) (m : Message)
    (hsplit : q.queue = xs ++ m :: ys) :
    (fetchAndTrack now2 (fetchN now2 g q xs.length) g).2 = Except.ok m := by
  obtain ⟨hq1, hc1⟩ := fetchN_spec now2 g q hq xs.length
  rw [hsplit] at hq1
  rw [List.drop_left] at hq1
  unfold fetchAndTrack
  rw [hc1, hq1]
  rfl

/-! ## Claim C2: visibility-timeout requeue -/

/-- C2: one monitor scan removes every expired pending record and
re-inserts its message non-blockingly at the tail of the queue, leaving
the log untouched; when the queue is full at that moment nothing is
pushed (the message survives only in the log); and when there is room, a
consumer that keeps fetching from the scanned partition receives the same
message — hence the same message id — again. -/
theorem claim_C2 (now : Nat) (p : PartitionState) :
    (∀ e ∈ p.pending, e.2.deadline < now →
      alLookup (monitorScan now p).pending e.1 = none)
    ∧ (monitorScan now p).log = p.log
    ∧ (p.queue.length + (expiredEntries now p.pending).length ≤ queueCapacity →
        (monitorScan now p).queue = p.queue ++ expiredMsgs now p.pending)
    ∧ (queueCapacity ≤ p.queue.length → (monitorScan now p).queue = p.queue)
    ∧ (∀ e ∈ p.pending, e.2.deadline < now →
        p.queue.length + (expiredEntries now p.pending).length ≤ queueCapacity →
        p.closed = false →
        ∀ g now2, ∃ k,
          (fetchAndTrack now2 (fetchN now2 g (monitorScan now p) k) g).2 =
            Except.ok e.2.msg) := by
  refine ⟨?_, scan_log now p.pending p, ?_, ?_, ?_⟩
  · intro e he hd
    obtain ⟨l1, l2, hsplit⟩ := List.append_of_mem he
    unfold monitorScan
    rw [hsplit] at he ⊢
    rw [List.foldl_append, List.foldl_cons]
    apply scan_erased
    rw [requeueStep_pending]
    rw [if_pos hd]
    exact alLookup_alErase_self _ _
  · intro h
    exact scan_queue_room now p.pending p h
  · intro h
    exact scan_queue_full now p.pending p h
  · intro e he hd hroom hcl g now2
    have hqueue : (monitorScan now p).queue = p.queue ++ expiredMsgs now p.pending :=
      scan_queue_room now p.pending p hroom
    have hmem : e.2.msg ∈ (monitorScan now p).queue := by
      rw [hqueue]
      apply List.mem_append_right
      unfold expiredMsgs
      apply List.mem_map_of_mem
      unfold expiredEntries
      rw [List.mem_filter]
      exact ⟨he, by simpa using hd⟩
    obtain ⟨xs, ys, hsplit⟩ := List.append_of_mem hmem
    have hclosed : (monitorScan now p).closed = false := by
      unfold monitorScan
      rw [scan_closed]
      exact hcl
    exact ⟨xs.length, fetch_delivers now2 g _ hclosed xs ys _ hsplit⟩

/-- Witness for C2 at a concrete expired record: after the scan the record
is gone from the pending set, the log is intact, the message sits at the
tail of the queue, and the next fetch redelivers it. -/
theorem claim_C2_witness :
    (alLookup (monitorScan 9 pW2).pending "m2" = none ∧
     (monitorScan 9 pW2).log = pW2.log ∧
     (monitorScan 9 pW2).queue = pW2.queue ++ expiredMsgs 9 pW2.pending) ∧
    (∃ k, (fetchAndTrack 9 (fetchN 9 "g1" (monitorScan 9 pW2) k) "g1").2 =
      Except.ok msgW2) :=
  ⟨⟨(claim_C2 9 pW2).1 ("m2", ⟨msgW2, 5, "g1"⟩) (by decide) (by decide),
    (claim_C2 9 pW2).2.1,
    (claim_C2 9 pW2).2.2.1 (by decide)⟩,
   (claim_C2 9 pW2).2.2.2.2 ("m2", ⟨msgW2, 5, "g1"⟩) (by decide) (by decide)
     (by decide) rfl "g1" 9⟩

end MQ

namespace CHash

/-! ## Binary-search contract lemmas -/

theorem searchGe_cons_pos (x : Nat) (xs : List Nat) (h : Nat) (hx : x < h) :
    searchGe (x :: xs) h = searchGe xs h + 1 := by
  simp [searchGe, List.takeWhile_cons, hx]

theorem searchGe_cons_neg (x : Nat) (xs : List Nat) (h : Nat) (hx : ¬ x < h) :
    searchGe (x :: xs) h = 0 := by
  simp [searchGe, List.takeWhile_cons, hx]

theorem searchGe_le_length (l : List Nat) (h : Nat) : searchGe l h ≤ l.length := by
  induction l with
  | nil => exact Nat.le_refl 0
  | cons x xs ih =>
    by_cases hx : x < h
    · rw [searchGe_cons_pos x xs h hx]
      simp only [List.length_cons]
      omega
    · rw [searchGe_cons_neg x xs h hx]
      exact Nat.zero_le _

theorem searchGe_before (l : List Nat) (h : Nat) :
    ∀ j < searchGe l h, l.getD j 0 < h := by
  induction l with
  | nil => intro j hj; simp [searchGe] at hj
  | cons x xs ih =>
    intro j hj
    by_cases hx : x < h
    · rw [searchGe_cons_pos x xs h hx] at hj
      cases j with
      | zero => simpa using hx
      | succ j2 =>
        have := ih j2 (by omega)
        simpa using this
    · rw [searchGe_cons_neg x xs h hx] at hj
      omega

theorem searchGe_at (l : List Nat) (h : Nat) (hlt : searchGe l h < l.length) :
    h ≤ l.getD (searchGe l h) 0 := by
  induction l with
  | nil => simp at hlt
  | cons x xs ih =>
    by_cases hx : x < h
    · rw [searchGe_cons_pos x xs h hx] at hlt ⊢
      simp only [List.length_cons] at hlt
      have := ih (by omega)
      simpa using this
    · rw [searchGe_cons_neg x xs h hx]
      simpa using Nat.le_of_not_lt hx

/-! ## Ring-map placement lemma -/

theorem foldl_alInsert_mem {κ α : Type} [DecidableEq κ]
    (pairs : List (κ × α)) (acc : List (κ × α)) (k : κ) (v : α)
    (h : MQ.alLookup (pairs.foldl (fun a e => MQ.alInsert a e.1 e.2) acc) k = some v) :
    (k, v) ∈ pairs ∨ MQ.alLookup acc k = some v := by
  induction pairs generalizing acc with
  | nil => right; exact h
  | cons e rest ih =>
    rcases ih (MQ.alInsert acc e.1 e.2) h with h1 | h1
    · left; exact List.mem_cons_of_mem _ h1
    · by_cases hk : k = e.1
      · subst hk
        rw [MQ.alLookup_alInsert_self] at h1
        left
        rcases e with ⟨a, w⟩
        injection h1 with hv
        rw [← hv]
        exact List.mem_cons_self _ _
      · right
        rw [MQ.alLookup_alInsert_ne _ _ _ _ hk] at h1
        exact h1

theorem ringPairs_fst (d : String → List Nat) (brokers : List String) (v : Nat) :
    (ringPairs d brokers v).map Prod.fst =
      brokers.flatMap (fun bk => (List.range v).map
        (fun i => hashBytes d (bk ++ ":" ++ MQ.natStr i))) := by
  unfold ringPairs vnodeKey
  induction brokers with
  | nil => rfl
  | cons b bs ih =>
    rw [List.flatMap_cons, List.flatMap_cons, List.map_append, ih, List.map_map]
    rfl

/-! ## Claim C7: ring construction and lookup -/

/-- C7: the sorted position list of the ring is exactly (a permutation,
kept sorted) of the 32-bit hashes of `<endpoint>:<i>` for every endpoint
and `i < V`; a lookup for `<topic>-partition-<index>` hashes the key the
same way, takes the first position at or above the hash (everything before
it is strictly below), wraps to position 0 when no such position exists,
and returns the endpoint the ring map placed at the selected position —
an endpoint one of whose virtual nodes hashed there. -/
theorem claim_C7 (d : String → List Nat) (brokers : List String) (v : Nat)
    (topic : String) (part : Nat) (hb : brokers ≠ []) :
    (buildRing d brokers v).sortedHashes.Perm
      (brokers.flatMap (fun bk => (List.range v).map
        (fun i => hashBytes d (bk ++ ":" ++ MQ.natStr i))))
    ∧ List.Sorted (· ≤ ·) (buildRing d brokers v).sortedHashes
    ∧ searchGe (buildRing d brokers v).sortedHashes
        (hashBytes d (topic ++ "-partition-" ++ MQ.natStr part)) ≤
        (buildRing d brokers v).sortedHashes.length
    ∧ (∀ j < searchGe (buildRing d brokers v).sortedHashes
          (hashBytes d (topic ++ "-partition-" ++ MQ.natStr part)),
        (buildRing d brokers v).sortedHashes.getD j 0 <
          hashBytes d (topic ++ "-partition-" ++ MQ.natStr part))
    ∧ (searchGe (buildRing d brokers v).sortedHashes
          (hashBytes d (topic ++ "-partition-" ++ MQ.natStr part)) <
        (buildRing d brokers v).sortedHashes.length →
        hashBytes d (topic ++ "-partition-" ++ MQ.natStr part) ≤
          (buildRing d brokers v).sortedHashes.getD
            (searchGe (buildRing d brokers v).sortedHashes
              (hashBytes d (topic ++ "-partition-" ++ MQ.natStr part))) 0)
    ∧ getBrokerByTopicPartition d (buildRing d brokers v) topic part =
        (MQ.alLookup (buildRing d brokers v).ring
          ((buildRing d brokers v).sortedHashes.getD
            (if searchGe (buildRing d brokers v).sortedHashes
                (hashBytes d (topic ++ "-partition-" ++ MQ.natStr part)) =
              (buildRing d brokers v).sortedHashes.length
             then 0
             else searchGe (buildRing d brokers v).sortedHashes
                (hashBytes d (topic ++ "-partition-" ++ MQ.natStr part))) 0)).getD ""
    ∧ (∀ pos bk, MQ.alLookup (buildRing d brokers v).ring pos = some bk →
        bk ∈ brokers ∧ ∃ i ∈ List.range v, hashBytes d (vnodeKey bk i) = pos) := by
  refine ⟨?_, ?_, searchGe_le_length _ _, searchGe_before _ _, searchGe_at _ _, ?_, ?_⟩
  · show (List.insertionSort (· ≤ ·) ((ringPairs d brokers v).map Prod.fst)).Perm _
    rw [← ringPairs_fst d brokers v]
    exact List.perm_insertionSort _ _
  · exact List.sorted_insertionSort _ _
  · unfold getBrokerByTopicPartition
    rw [if_neg (show ¬ (buildRing d brokers v).brokers = [] from hb)]
    rfl
  · intro pos bk h
    rcases foldl_alInsert_mem _ _ _ _ h with h1 | h1
    · unfold ringPairs at h1
      rw [List.mem_flatMap] at h1
      obtain ⟨b2, hb2, hmem⟩ := h1
      rw [List.mem_map] at hmem
      obtain ⟨i, hi, heq⟩ := hmem
      have hbk : b2 = bk := congrArg Prod.snd heq
      have hpos : hashBytes d (vnodeKey b2 i) = pos := congrArg Prod.fst heq
      subst hbk
      exact ⟨hb2, i, hi, hpos⟩
    · cases h1

/-- Witness for C7 on a concrete two-endpoint ring. -/
theorem claim_C7_witness :
    (buildRing MQ.dW7 ["a", "bb"] 2).sortedHashes.Perm
      (["a", "bb"].flatMap (fun bk => (List.range 2).map
        (fun i => hashBytes MQ.dW7 (bk ++ ":" ++ MQ.natStr i))))
    ∧ List.Sorted (· ≤ ·) (buildRing MQ.dW7 ["a", "bb"] 2).sortedHashes
    ∧ getBrokerByTopicPartition MQ.dW7 (buildRing MQ.dW7 ["a", "bb"] 2) "t" 1 =
        (MQ.alLookup (buildRing MQ.dW7 ["a", "bb"] 2).ring
          ((buildRing MQ.dW7 ["a", "bb"] 2).sortedHashes.getD
            (if searchGe (buildRing MQ.dW7 ["a", "bb"] 2).sortedHashes
                (hashBytes MQ.dW7 ("t" ++ "-partition-" ++ MQ.natStr 1)) =
              (buildRing MQ.dW7 ["a", "bb"] 2).sortedHashes.length
             then 0
             else searchGe (buildRing MQ.dW7 ["a", "bb"] 2).sortedHashes
                (hashBytes MQ.dW7 ("t" ++ "-partition-" ++ MQ.natStr 1))) 0)).getD "" := by
  have h := claim_C7 MQ.dW7 ["a", "bb"] 2 "t" 1 (by decide)
  exact ⟨h.1, h.2.1, h.2.2.2.2.2.1⟩

/-! ## Claim C10: broker addition and removal -/

theorem removeFirst_eq_erase (l : List String) (b : String) :
    removeFirst l b = l.erase b := by
  induction l with
  | nil => rfl
  | cons x xs ih =>
    rw [List.erase_cons]
    unfold removeFirst
    by_cases hx : x = b
    · rw [if_pos hx, if_pos (by simpa using hx)]
    · rw [if_neg hx, if_neg (by simpa using hx), ih]

theorem removeFirst_append_self (l : List String) (b : String) (hb : b ∉ l) :
    removeFirst (l ++ [b]) b = l := by
  induction l with
  | nil => simp [removeFirst]
  | cons x xs ih =>
    have hx : x ≠ b := by
      intro hxb
      exact hb (hxb ▸ List.mem_cons_self _ _)
    show removeFirst (x :: (xs ++ [b])) b = x :: xs
    unfold removeFirst
    rw [if_neg hx, ih (fun hmem => hb (List.mem_cons_of_mem _ hmem))]

/-- C10: adding an endpoint already in the list leaves the ring object
entirely unchanged; adding a new endpoint appends it and rebuilds the ring
deterministically from the appended broker list; removal drops the first
occurrence and rebuilds from the remainder; and on a canonically built
ring, removal undoes addition. -/
theorem claim_C10 (d : String → List Nat) (ch : Ring) (bk : String) :
    (bk ∈ ch.brokers → addBroker d ch bk = ch)
    ∧ (bk ∉ ch.brokers →
        addBroker d ch bk = buildRing d (ch.brokers ++ [bk]) ch.virtualNodes ∧
        (addBroker d ch bk).brokers = ch.brokers ++ [bk])
    ∧ ((removeBroker d ch bk).brokers = ch.brokers.erase bk ∧
        removeBroker d ch bk = buildRing d (ch.brokers.erase bk) ch.virtualNodes)
    ∧ (bk ∉ ch.brokers → ch = buildRing d ch.brokers ch.virtualNodes →
        removeBroker d (addBroker d ch bk) bk = ch) := by
  refine ⟨?_, ?_, ?_, ?_⟩
  · intro hmem
    unfold addBroker
    rw [if_pos hmem]
  · intro hmem
    unfold addBroker
    rw [if_neg hmem]
    exact ⟨rfl, rfl⟩
  · constructor
    · show (buildRing d (removeFirst ch.brokers bk) ch.virtualNodes).brokers = _
      show removeFirst ch.brokers bk = _
      exact removeFirst_eq_erase ch.brokers bk
    · unfold removeBroker
      rw [removeFirst_eq_erase]
  · intro hmem hcanon
    unfold removeBroker
    unfold addBroker
    rw [if_neg hmem]
    show buildRing d
      (removeFirst (buildRing d (ch.brokers ++ [bk]) ch.virtualNodes).brokers bk)
      (buildRing d (ch.brokers ++ [bk]) ch.virtualNodes).virtualNodes = ch
    show buildRing d (removeFirst (ch.brokers ++ [bk]) bk) ch.virtualNodes = ch
    rw [removeFirst_append_self ch.brokers bk hmem]
    exact hcanon.symm

/-- Witness for C10: idempotent re-addition and exact add/remove inverse on
a concrete ring. -/
theorem claim_C10_witness :
    (addBroker MQ.dW7 (buildRing MQ.dW7 ["a", "bb"] 2) "a" =
      buildRing MQ.dW7 ["a", "bb"] 2) ∧
    (removeBroker MQ.dW7 (addBroker MQ.dW7 (buildRing MQ.dW7 ["a", "bb"] 2) "c") "c" =
      buildRing MQ.dW7 ["a", "bb"] 2) :=
  ⟨(claim_C10 MQ.dW7 (buildRing MQ.dW7 ["a", "bb"] 2) "a").1 (by decide),
   (claim_C10 MQ.dW7 (buildRing MQ.dW7 ["a", "bb"] 2) "c").2.2.2 (by decide) rfl⟩

end CHash

namespace Proxy

/-! ## Claim C8 (corrected): failover on unhealthy ring endpoint -/

/-- C8 as amended: when the ring's endpoint is unhealthy and some endpoint
in the broker list is healthy, the proxy routes to a healthy endpoint from
the list; when no endpoint is healthy the selection falls back to the
ring's (unhealthy) endpoint — there is no error — and the handler forwards
to it; the handler replies without forwarding only when selection returns
the empty string (empty broker list). -/
theorem claim_C8_amended (d : String → List Nat) (sp : SmartProxy)
    (topic : String) (part : Nat) (partStr : String) :
    (healthyLookup sp (CHash.getBrokerByTopicPartition d sp.ring topic part) = false →
      (∃ e ∈ sp.brokerEndpoints, healthyLookup sp e = true) →
      healthyLookup sp (getBrokerForTopicPartition d sp topic part) = true ∧
      getBrokerForTopicPartition d sp topic part ∈ sp.brokerEndpoints)
    ∧ ((∀ e ∈ sp.brokerEndpoints, healthyLookup sp e = false) →
        getBrokerForTopicPartition d sp topic part =
          CHash.getBrokerByTopicPartition d sp.ring topic part)
    ∧ (topic ≠ "" → partStr ≠ "" → MQ.strconvAtoi partStr = some part →
        getBrokerForTopicPartition d sp topic part ≠ "" →
        proxyProduceRoute d sp topic partStr =
          ProxyResult.forward (getBrokerForTopicPartition d sp topic part))
    ∧ (topic ≠ "" → partStr ≠ "" → MQ.strconvAtoi partStr = some part →
        getBrokerForTopicPartition d sp topic part = "" →
        proxyProduceRoute d sp topic partStr =
          ProxyResult.reply 503 "no healthy brokers available") := by
  refine ⟨?_, ?_, ?_, ?_⟩
  · intro hring hex
    have hsome : (sp.brokerEndpoints.find? (fun e => healthyLookup sp e)).isSome = true := by
      rw [List.find?_isSome]
      obtain ⟨e, he, hh⟩ := hex
      exact ⟨e, he, hh⟩
    rcases hfind : sp.brokerEndpoints.find? (fun e => healthyLookup sp e) with _ | e2
    · rw [hfind] at hsome; cases hsome
    · have hres : getBrokerForTopicPartition d sp topic part = e2 := by
        simp only [getBrokerForTopicPartition, hring, hfind]
        simp
      rw [hres]
      exact ⟨List.find?_some hfind, List.mem_of_find?_eq_some hfind⟩
  · intro hall
    have hnone : sp.brokerEndpoints.find? (fun e => healthyLookup sp e) = none := by
      rw [List.find?_eq_none]
      intro e he
      simp [hall e he]
    by_cases hring :
        healthyLookup sp (CHash.getBrokerByTopicPartition d sp.ring topic part) = false
    · simp only [getBrokerForTopicPartition, hring, hnone]
      simp
    · have htrue :
          healthyLookup sp (CHash.getBrokerByTopicPartition d sp.ring topic part) = true := by
        cases hcase :
            healthyLookup sp (CHash.getBrokerByTopicPartition d sp.ring topic part)
        · exact absurd hcase hring
        · rfl
      simp only [getBrokerForTopicPartition, htrue]
      simp
  · intro ht hp hatoi htarget
    unfold proxyProduceRoute
    rw [if_neg (by simp [ht, hp]), hatoi]
    dsimp only
    rw [if_neg htarget]
  · intro ht hp hatoi htarget
    unfold proxyProduceRoute
    rw [if_neg (by simp [ht, hp]), hatoi]
    dsimp only
    rw [if_pos htarget]

/-- Counterexample to C8 as stated: with the single broker `b0` unhealthy
(no healthy endpoint at all), the lookup does not return an error — it
returns `b0` itself — and the produce handler forwards to it instead of
replying to the client. -/
theorem claim_C8_counterexample :
    (∀ e ∈ spW8.brokerEndpoints, healthyLookup spW8 e = false) ∧
    getBrokerForTopicPartition MQ.dW8 spW8 "t" 0 = "b0" ∧
    proxyProduceRoute MQ.dW8 spW8 "t" "0" = ProxyResult.forward "b0" := by
  refine ⟨?_, ?_, ?_⟩ <;> decide

/-- Witness for the amended C8: the ring selects the unhealthy `b1`, and
the proxy falls over to the healthy `b0` from the broker list. -/
theorem claim_C8_witness :
    healthyLookup spW8b (getBrokerForTopicPartition MQ.dW8 spW8b "t" 0) = true ∧
    getBrokerForTopicPartition MQ.dW8 spW8b "t" 0 ∈ spW8b.brokerEndpoints :=
  (claim_C8_amended MQ.dW8 spW8b "t" 0 "0").1 (by decide) (by decide)

end Proxy

namespace MQ

/-! ## Digit facts and decimal round trip -/

theorem digitChar_toNat : ∀ n, n < 10 → (digitChar n).toNat = 48 + n := by
  decide

theorem natDigitsAux_digits (f n : Nat) :
    ∀ c ∈ natDigitsAux f n, 48 ≤ c.toNat ∧ c.toNat ≤ 57 := by
  induction f generalizing n with
  | zero => intro c hc; cases hc
  | succ f ih =>
    intro c hc
    unfold natDigitsAux at hc
    by_cases h : n < 10
    · rw [if_pos h] at hc
      rcases List.mem_singleton.mp hc with rfl
      rw [digitChar_toNat n h]
      omega
    · rw [if_neg h] at hc
      rcases List.mem_append.mp hc with h2 | h2
      · exact ih _ _ h2
      · rcases List.mem_singleton.mp h2 with rfl
        rw [digitChar_toNat _ (Nat.mod_lt _ (by omega))]
        omega

theorem natDigits_digits (n : Nat) :
    ∀ c ∈ natDigits n, 48 ≤ c.toNat ∧ c.toNat ≤ 57 :=
  natDigitsAux_digits (n + 1) n

theorem atoiAux_append (l1 l2 : List Char) (acc : Nat) :
    atoiAux (l1 ++ l2) acc =
      match atoiAux l1 acc with
      | some acc2 => atoiAux l2 acc2
      | none => none := by
  induction l1 generalizing acc with
  | nil => rfl
  | cons c r ih =>
    show atoiAux (c :: (r ++ l2)) acc = _
    rw [show atoiAux (c :: (r ++ l2)) acc =
        (if 48 ≤ c.toNat ∧ c.toNat ≤ 57 then
          atoiAux (r ++ l2) (acc * 10 + (c.toNat - 48))
        else none) from rfl]
    rw [show atoiAux (c :: r) acc =
        (if 48 ≤ c.toNat ∧ c.toNat ≤ 57 then
          atoiAux r (acc * 10 + (c.toNat - 48))
        else none) from rfl]
    by_cases h : 48 ≤ c.toNat ∧ c.toNat ≤ 57
    · rw [if_pos h, if_pos h, ih]
    · rw [if_neg h, if_neg h]

theorem atoiAux_natDigitsAux (f : Nat) :
    ∀ n acc, n < f →
      atoiAux (natDigitsAux f n) acc =
        some (acc * 10 ^ (natDigitsAux f n).length + n) := by
  induction f with
  | zero => intro n acc h; omega
  | succ f ih =>
    intro n acc h
    unfold natDigitsAux
    by_cases h10 : n < 10
    · rw [if_pos h10]
      rw [show atoiAux [digitChar n] acc =
          (if 48 ≤ (digitChar n).toNat ∧ (digitChar n).toNat ≤ 57 then
            atoiAux [] (acc * 10 + ((digitChar n).toNat - 48))
          else none) from rfl]
      rw [if_pos (by rw [digitChar_toNat n h10]; omega)]
      rw [digitChar_toNat n h10]
      have h48 : 48 + n - 48 = n := by omega
      rw [h48]
      show some (acc * 10 + n) = some (acc * 10 ^ ([digitChar n].length) + n)
      simp only [List.length_cons, List.length_nil, Nat.zero_add, pow_one]
    · rw [if_neg h10]
      have hrec : n / 10 < f := by omega
      rw [atoiAux_append, ih (n / 10) acc hrec]
      dsimp only
      rw [show atoiAux [digitChar (n % 10)]
            (acc * 10 ^ (natDigitsAux f (n / 10)).length + n / 10) =
          (if 48 ≤ (digitChar (n % 10)).toNat ∧ (digitChar (n % 10)).toNat ≤ 57 then
            atoiAux []
              ((acc * 10 ^ (natDigitsAux f (n / 10)).length + n / 10) * 10 +
                ((digitChar (n % 10)).toNat - 48))
          else none) from rfl]
      have hm : n % 10 < 10 := Nat.mod_lt _ (by omega)
      rw [if_pos (by rw [digitChar_toNat _ hm]; omega)]
      rw [digitChar_toNat _ hm]
      have h48 : 48 + n % 10 - 48 = n % 10 := by omega
      rw [h48]
      show some ((acc * 10 ^ (natDigitsAux f (n / 10)).length + n / 10) * 10 + n % 10) =
        some (acc * 10 ^ (natDigitsAux f (n / 10) ++ [digitChar (n % 10)]).length + n)
      rw [List.length_append]
      simp only [List.length_cons, List.length_nil, Nat.add_zero, Nat.zero_add]
      rw [pow_succ]
      congr 1
      rw [← Nat.mul_assoc]
      generalize acc * 10 ^ (natDigitsAux f (n / 10)).length = A
      omega

theorem strconvAtoi_natStr (n : Nat) : strconvAtoi (natStr n) = some n := by
  have hne : natDigits n ≠ [] := by
    unfold natDigits natDigitsAux
    by_cases h : n < 10
    · rw [if_pos h]; simp
    · rw [if_neg h]; simp
  unfold strconvAtoi natStr
  rw [if_neg (by simpa using hne)]
  show atoiAux (natDigits n) 0 = some n
  unfold natDigits
  rw [atoiAux_natDigitsAux (n + 1) n 0 (by omega)]
  simp

/-! ## JSON string-literal round trip -/

theorem hexVal_hexDigitChar : ∀ n, n < 16 → hexVal (hexDigitChar n) = some n := by
  decide

theorem parseStrSM_norm_cons (c : Char) (tail acc : List Char)
    (h1 : ¬ c = '"') (h2 : ¬ c = '\\') :
    parseStrSM (c :: tail) StrPMode.norm acc =
      parseStrSM tail StrPMode.norm (c :: acc) := by
  rw [show parseStrSM (c :: tail) StrPMode.norm acc =
      (if c = '"' then some (acc.reverse, tail)
       else if c = '\\' then parseStrSM tail StrPMode.esc acc
       else parseStrSM tail StrPMode.norm (c :: acc)) from rfl]
  rw [if_neg h1, if_neg h2]

theorem parse_escape_sm (l : List Char) (rest : List Char) :
    ∀ acc, parseStrSM (escList l ++ '"' :: rest) StrPMode.norm acc =
      some (acc.reverse ++ l, rest) := by
  induction l with
  | nil =>
    intro acc
    show parseStrSM ('"' :: rest) StrPMode.norm acc = _
    rw [show parseStrSM ('"' :: rest) StrPMode.norm acc =
        some (acc.reverse, rest) from rfl]
    simp
  | cons c cs ih =>
    intro acc
    have hesc : escList (c :: cs) = jsonEscapeChar c ++ escList cs := by
      simp [escList]
    rw [hesc, List.append_assoc]
    unfold jsonEscapeChar
    by_cases hq : c = '"'
    · rw [if_pos hq]
      subst hq
      show parseStrSM ('\\' :: '"' :: (escList cs ++ '"' :: rest)) StrPMode.norm acc = _
      rw [show parseStrSM ('\\' :: '"' :: (escList cs ++ '"' :: rest)) StrPMode.norm acc =
          parseStrSM (escList cs ++ '"' :: rest) StrPMode.norm ('"' :: acc) from rfl]
      rw [ih ('"' :: acc)]
      simp
    · rw [if_neg hq]
      by_cases hb : c = '\\'
      · rw [if_pos hb]
        subst hb
        rw [show parseStrSM (['\\', '\\'] ++ (escList cs ++ '"' :: rest)) StrPMode.norm acc =
            parseStrSM (escList cs ++ '"' :: rest) StrPMode.norm ('\\' :: acc) from rfl]
        rw [ih ('\\' :: acc)]
        simp
      · rw [if_neg hb]
        by_cases hn : c = '\n'
        · rw [if_pos hn]
          subst hn
          rw [show parseStrSM (['\\', 'n'] ++ (escList cs ++ '"' :: rest)) StrPMode.norm acc =
              parseStrSM (escList cs ++ '"' :: rest) StrPMode.norm ('\n' :: acc) from rfl]
          rw [ih ('\n' :: acc)]
          simp
        · rw [if_neg hn]
          by_cases hr : c = '\r'
          · rw [if_pos hr]
            subst hr
            rw [show parseStrSM (['\\', 'r'] ++ (escList cs ++ '"' :: rest)) StrPMode.norm acc =
                parseStrSM (escList cs ++ '"' :: rest) StrPMode.norm ('\r' :: acc) from rfl]
            rw [ih ('\r' :: acc)]
            simp
          · rw [if_neg hr]
            by_cases ht : c = '\t'
            · rw [if_pos ht]
              subst ht
              rw [show parseStrSM (['\\', 't'] ++ (escList cs ++ '"' :: rest)) StrPMode.norm acc =
                  parseStrSM (escList cs ++ '"' :: rest) StrPMode.norm ('\t' :: acc) from rfl]
              rw [ih ('\t' :: acc)]
              simp
            · rw [if_neg ht]
              by_cases hc : c.toNat < 32 ∨ c = '<' ∨ c = '>' ∨ c = '&'
              · rw [if_pos hc]
                have hbound : c.toNat < 256 := by
                  rcases hc with h | h | h | h
                  · omega
                  · subst h; decide
                  · subst h; decide
                  · subst h; decide
                have e1 : hexVal (hexDigitChar (c.toNat / 16)) = some (c.toNat / 16) :=
                  hexVal_hexDigitChar _ (by omega)
                have e2 : hexVal (hexDigitChar (c.toNat % 16)) = some (c.toNat % 16) :=
                  hexVal_hexDigitChar _ (by omega)
                rw [show parseStrSM (['\\', 'u', '0', '0', hexDigitChar (c.toNat / 16),
                      hexDigitChar (c.toNat % 16)] ++ (escList cs ++ '"' :: rest))
                    StrPMode.norm acc =
                  parseStrSM (hexDigitChar (c.toNat / 16) :: hexDigitChar (c.toNat % 16) ::
                      (escList cs ++ '"' :: rest)) (StrPMode.uni 2 0) acc from rfl]
                rw [show parseStrSM (hexDigitChar (c.toNat / 16) :: hexDigitChar (c.toNat % 16) ::
                      (escList cs ++ '"' :: rest)) (StrPMode.uni 2 0) acc =
                  (match hexVal (hexDigitChar (c.toNat / 16)) with
                   | some dg =>
                     if (1 : Nat) = 0 then
                       parseStrSM (hexDigitChar (c.toNat % 16) :: (escList cs ++ '"' :: rest))
                         StrPMode.norm (Char.ofNat (0 * 16 + dg) :: acc)
                     else
                       parseStrSM (hexDigitChar (c.toNat % 16) :: (escList cs ++ '"' :: rest))
                         (StrPMode.uni 1 (0 * 16 + dg)) acc
                   | none => none) from rfl]
                rw [e1]
                dsimp only
                rw [show parseStrSM (hexDigitChar (c.toNat % 16) :: (escList cs ++ '"' :: rest))
                      (StrPMode.uni 1 (0 * 16 + c.toNat / 16)) acc =
                  (match hexVal (hexDigitChar (c.toNat % 16)) with
                   | some dg =>
                     if (0 : Nat) = 0 then
                       parseStrSM (escList cs ++ '"' :: rest) StrPMode.norm
                         (Char.ofNat ((0 * 16 + c.toNat / 16) * 16 + dg) :: acc)
                     else
                       parseStrSM (escList cs ++ '"' :: rest)
                         (StrPMode.uni 0 ((0 * 16 + c.toNat / 16) * 16 + dg)) acc
                   | none => none) from rfl]
                rw [e2]
                dsimp only
                have hval : (0 * 16 + c.toNat / 16) * 16 + c.toNat % 16 = c.toNat := by omega
                rw [hval, Char.ofNat_toNat]
                rw [ih (c :: acc)]
                simp
              · rw [if_neg hc]
                by_cases hu : c.toNat = 8232 ∨ c.toNat = 8233
                · rw [if_pos hu]
                  have e2 : hexVal (hexDigitChar (c.toNat % 16)) = some (c.toNat % 16) :=
                    hexVal_hexDigitChar _ (by omega)
                  rw [show parseStrSM (['\\', 'u', '2', '0', '2',
                        hexDigitChar (c.toNat % 16)] ++ (escList cs ++ '"' :: rest))
                      StrPMode.norm acc =
                    parseStrSM (hexDigitChar (c.toNat % 16) :: (escList cs ++ '"' :: rest))
                      (StrPMode.uni 1 514) acc from rfl]
                  rw [show parseStrSM (hexDigitChar (c.toNat % 16) :: (escList cs ++ '"' :: rest))
                        (StrPMode.uni 1 514) acc =
                    (match hexVal (hexDigitChar (c.toNat % 16)) with
                     | some dg =>
                       if (0 : Nat) = 0 then
                         parseStrSM (escList cs ++ '"' :: rest) StrPMode.norm
                           (Char.ofNat (514 * 16 + dg) :: acc)
                       else
                         parseStrSM (escList cs ++ '"' :: rest)
                           (StrPMode.uni 0 (514 * 16 + dg)) acc
                     | none => none) from rfl]
                  rw [e2]
                  dsimp only
                  have hval : 514 * 16 + c.toNat % 16 = c.toNat := by
                    rcases hu with h | h <;> omega
                  rw [hval, Char.ofNat_toNat]
                  rw [ih (c :: acc)]
                  simp
                · rw [if_neg hu]
                  show parseStrSM (c :: (escList cs ++ '"' :: rest)) StrPMode.norm acc = _
                  rw [parseStrSM_norm_cons c _ acc hq hb]
                  rw [ih (c :: acc)]
                  simp

theorem parse_escape (l rest : List Char) :
    parseStrAux (escList l ++ '"' :: rest) = some (l, rest) := by
  unfold parseStrAux
  rw [parse_escape_sm l rest []]
  simp

end MQ

namespace MQ

/-! ## Prefix and list bookkeeping lemmas -/

theorem matchPfx_append {α : Type} [DecidableEq α] (q r : List α) :
    matchPfx (q ++ r) q = some r := by
  induction q with
  | nil => rfl
  | cons c qs ih =>
    show matchPfx (c :: (qs ++ r)) (c :: qs) = some r
    unfold matchPfx
    dsimp only
    rw [if_pos rfl]
    exact ih

theorem mk_data (s : String) : String.mk s.data = s := rfl

theorem hasPfx_append (q s : String) : hasPfx q (q ++ s) = true := by
  unfold hasPfx
  rw [String.data_append, matchPfx_append]
  rfl

theorem trimPfx_append (q s : String) : trimPfx q (q ++ s) = s := by
  unfold trimPfx
  rw [String.data_append, matchPfx_append]

theorem ne_empty_of_data_cons {s : String} {c : Char} {l : List Char}
    (h : s.data = c :: l) : s ≠ "" := by
  intro he
  rw [he] at h
  cases h

theorem takeWhile_append_all {α : Type} (p : α → Bool) (l m : List α)
    (h : ∀ c ∈ l, p c = true) :
    (l ++ m).takeWhile p = l ++ m.takeWhile p := by
  induction l with
  | nil => rfl
  | cons c cs ih =>
    show ((c :: cs) ++ m).takeWhile p = _
    rw [List.cons_append, List.takeWhile_cons, if_pos (h c (List.mem_cons_self _ _))]
    rw [ih (fun c2 hc2 => h c2 (List.mem_cons_of_mem _ hc2))]
    rfl

theorem dropWhile_append_all {α : Type} (p : α → Bool) (l m : List α)
    (h : ∀ c ∈ l, p c = true) :
    (l ++ m).dropWhile p = m.dropWhile p := by
  induction l with
  | nil => rfl
  | cons c cs ih =>
    show ((c :: cs) ++ m).dropWhile p = _
    rw [List.cons_append, List.dropWhile_cons, if_pos (h c (List.mem_cons_self _ _))]
    exact ih (fun c2 hc2 => h c2 (List.mem_cons_of_mem _ hc2))

/-! ## Decoding a message JSON produced by the encoder -/

theorem data_mk (l : List Char) : (String.mk l).data = l := rfl

theorem encMessage_data (m : Message) :
    (encMessage m).data =
      (("\x7b\"id\":\"" : String).data ++ (escList m.id.data ++ ('"' :: ((",\"payload\":\"" : String).data ++ (escList m.payload.data ++ ('"' :: ((",\"created_at\":\"" : String).data ++ (escList (encTime m.createdAt).data ++ ('"' :: ((",\"topic\":\"" : String).data ++ (escList m.topic.data ++ ('"' :: ((",\"partition\":" : String).data ++ (natDigits m.partition ++ ['\x7d'])))))))))))))) := by
  unfold encMessage jsonQuote natStr encTime
  simp only [String.data_append, data_mk]
  simp [List.append_assoc]

theorem natDigits_ne_rbrace (m : Message) :
    ∀ c ∈ natDigits m.partition, (fun c => decide (c ≠ '\x7d')) c = true := by
  intro c hc
  have hb := natDigits_digits m.partition c hc
  simp only [decide_eq_true_eq]
  intro hcc
  rw [hcc] at hb
  revert hb
  decide

theorem decMessage_encMessage (m : Message) :
    decMessage (encMessage m) =
      some ⟨m.id, m.payload, encTime m.createdAt, m.topic, m.partition⟩ := by
  unfold decMessage
  rw [encMessage_data, matchPfx_append]
  dsimp only
  rw [parse_escape]
  dsimp only
  rw [matchPfx_append]
  dsimp only
  rw [parse_escape]
  dsimp only
  rw [matchPfx_append]
  dsimp only
  rw [parse_escape]
  dsimp only
  rw [matchPfx_append]
  dsimp only
  rw [parse_escape]
  dsimp only
  rw [matchPfx_append]
  dsimp only
  rw [takeWhile_append_all _ _ _ (natDigits_ne_rbrace m)]
  rw [dropWhile_append_all _ _ _ (natDigits_ne_rbrace m)]
  rw [show List.takeWhile (fun c => decide (c ≠ '\x7d')) ['\x7d'] = [] from rfl]
  rw [show List.dropWhile (fun c => decide (c ≠ '\x7d')) ['\x7d'] = ['\x7d'] from rfl]
  rw [if_pos rfl]
  rw [List.append_nil]
  show some (QueueMessage.mk (String.mk m.id.data) (String.mk m.payload.data)
    (String.mk (encTime m.createdAt).data) (String.mk m.topic.data)
    ((strconvAtoi (String.mk (natDigits m.partition))).getD 0)) = _
  rw [mk_data, mk_data, mk_data, mk_data]
  rw [show String.mk (natDigits m.partition) = natStr m.partition from rfl]
  rw [strconvAtoi_natStr]
  rfl

end MQ

namespace MQ

/-! ## The client's publish body through the broker's body parsing -/

theorem publishBody_data (P : String) :
    (clientPublishBody P).data =
      ("\x7b\"payload\":\"" : String).data ++ (escList P.data ++ ('"' :: ['\x7d'])) := by
  unfold clientPublishBody jsonQuote
  simp only [String.data_append, data_mk]
  simp [List.append_assoc]

theorem trimSpace_publishBody (P : String) :
    trimSpace (clientPublishBody P) = clientPublishBody P := by
  unfold trimSpace
  have hsplit : (clientPublishBody P).data =
      ('\x7b' :: (("\"payload\":\"" : String).data ++ (escList P.data ++ ['"']))) ++
        ['\x7d'] := by
    rw [publishBody_data]
    simp [List.append_assoc]
  rw [hsplit]
  rw [show List.dropWhile isSpaceChar
      (('\x7b' :: (("\"payload\":\"" : String).data ++ (escList P.data ++ ['"']))) ++
        ['\x7d']) =
      ('\x7b' :: (("\"payload\":\"" : String).data ++ (escList P.data ++ ['"']))) ++
        ['\x7d'] from by
    rw [List.cons_append, List.dropWhile_cons]
    rw [if_neg (by decide : ¬ isSpaceChar '\x7b' = true)]]
  rw [List.reverse_append]
  rw [show (['\x7d'] : List Char).reverse = ['\x7d'] from rfl]
  rw [List.singleton_append, List.dropWhile_cons]
  rw [if_neg (by decide : ¬ isSpaceChar '\x7d' = true)]
  rw [show ('\x7d' ::
      ('\x7b' :: (("\"payload\":\"" : String).data ++ (escList P.data ++ ['"']))).reverse) =
      (('\x7b' :: (("\"payload\":\"" : String).data ++ (escList P.data ++ ['"']))) ++
        ['\x7d']).reverse from by
    rw [List.reverse_append]
    rfl]
  rw [List.reverse_reverse, ← hsplit, mk_data]

theorem parsePayloadField_publishBody (P : String) :
    parsePayloadField (clientPublishBody P) = some P := by
  unfold parsePayloadField
  rw [publishBody_data, matchPfx_append]
  dsimp only
  rw [parse_escape]
  dsimp only
  rw [if_pos rfl, mk_data]

theorem brokerParseBody_publishBody (P : String) (hP : P ≠ "") :
    brokerParseBody (clientPublishBody P) = P := by
  have hpfx : hasPfx "\x7b" (clientPublishBody P) = true := by
    unfold hasPfx
    rw [publishBody_data]
    rfl
  unfold brokerParseBody
  rw [trimSpace_publishBody]
  show (if hasPfx "\x7b" (clientPublishBody P) = true then
      match parsePayloadField (clientPublishBody P) with
      | some v => if v ≠ "" then v else clientPublishBody P
      | none => clientPublishBody P
    else clientPublishBody P) = P
  rw [hpfx, if_pos rfl, parsePayloadField_publishBody]
  dsimp only
  rw [if_pos hP]

/-! ## The client's SSE scanner on one broker event -/

theorem encMessage_ne_empty (m : Message) : encMessage m ≠ "" := by
  apply ne_empty_of_data_cons
  rw [encMessage_data]
  rfl

theorem clientParseSse_event (m : Message) (hid : m.id ≠ "") :
    clientParseSse (sseEventLines m) =
      [⟨m.id, m.payload, encTime m.createdAt, m.topic, m.partition⟩] := by
  unfold clientParseSse sseEventLines
  rw [List.foldl_cons, List.foldl_cons, List.foldl_cons, List.foldl_cons, List.foldl_nil]
  have h1 : clientSseStep ⟨"", "", []⟩ ("id: " ++ m.id) =
      ⟨String.mk m.id.data, "", []⟩ := rfl
  have h2 : clientSseStep ⟨String.mk m.id.data, "", []⟩ ("data: " ++ encMessage m) =
      ⟨String.mk m.id.data, String.mk (encMessage m).data, []⟩ := rfl
  have h3 : clientSseStep ⟨String.mk m.id.data, String.mk (encMessage m).data, []⟩
      ("partition: " ++ natStr m.partition) =
      ⟨String.mk m.id.data, String.mk (encMessage m).data, []⟩ := rfl
  have h4 : clientSseStep ⟨String.mk m.id.data, String.mk (encMessage m).data, []⟩ "" =
      ⟨"", "", [⟨m.id, m.payload, encTime m.createdAt, m.topic, m.partition⟩]⟩ := by
    unfold clientSseStep
    dsimp only
    rw [show hasPfx "id: " "" = false from rfl]
    rw [show hasPfx "data: " "" = false from rfl]
    simp only [Bool.false_eq_true, if_false]
    rw [if_pos (show True ∧ String.mk m.id.data ≠ "" ∧
        String.mk (encMessage m).data ≠ "" from
      ⟨trivial, by rw [mk_data]; exact hid, by rw [mk_data]; exact encMessage_ne_empty m⟩)]
    rw [mk_data, decMessage_encMessage]
    rfl
  rw [h1, h2, h3, h4]

end MQ

namespace MQ

/-! ## Claim C9 (corrected): payload round trip -/

/-- C9 as amended: for every NON-EMPTY payload `P`, the pipeline — the
client's produce body `\x7b"payload": P\x7d`, the broker's body parsing
and storage, the SSE framing of the consume handler, and the client's SSE
scanning and JSON decoding — delivers exactly `P` to the subscriber. (For
the empty payload the broker keeps the raw JSON body instead; see the
counterexample.) -/
theorem claim_C9 (b : BrokerState) (newID : String) (now : Nat)
    (topic partStr P group : String) (part : Nat)
    (hP : P ≠ "") (hid : newID ≠ "")
    (ht : topic ≠ "") (hp : partStr ≠ "")
    (hatoi : strconvAtoi partStr = some part)
    (p0 : PartitionState)
    (hget : getPartitionForProduce b topic part = Except.ok p0)
    (hq : p0.queue = []) (hc : p0.closed = false) :
    roundTripPayload b newID now topic partStr P group = some P := by
  have hbody : brokerParseBody (clientPublishBody P) = P :=
    brokerParseBody_publishBody P hP
  have hlen : p0.queue.length < queueCapacity := by
    rw [hq]
    decide
  have henq : enqueue true p0 ⟨newID, P, now, topic, part⟩ =
      ({ p0 with log := p0.log ++ encMessage ⟨newID, P, now, topic, part⟩ ++ "\n",
                 queue := [⟨newID, P, now, topic, part⟩] },
       Except.ok ()) := by
    unfold enqueue persist
    dsimp only
    rw [if_pos hlen, hq]
    rfl
  obtain ⟨pm, hpm⟩ := getPartitionForProduce_parts b topic part p0 hget
  have heval : produceHandler b true newID now topic partStr (clientPublishBody P) =
      (setPartition b topic part
        { p0 with log := p0.log ++ encMessage ⟨newID, P, now, topic, part⟩ ++ "\n",
                  queue := [⟨newID, P, now, topic, part⟩] },
       ⟨200, "\x7b\"id\":\"" ++ newID ++ "\"\x7d"⟩) := by
    unfold produceHandler
    rw [if_neg (by simp [ht, hp]), hatoi]
    dsimp only
    rw [hget]
    dsimp only
    rw [hbody, henq]
  unfold roundTripPayload
  rw [heval]
  dsimp only
  rw [if_pos rfl, hatoi]
  dsimp only
  unfold setPartition
  rw [hpm]
  dsimp only
  rw [alLookup_alInsert_self]
  dsimp only
  rw [alLookup_alInsert_self]
  dsimp only
  unfold consumeOneSse fetchAndTrack
  rw [show ({ p0 with log := p0.log ++ encMessage ⟨newID, P, now, topic, part⟩ ++ "\n", queue := [⟨newID, P, now, topic, part⟩] } : PartitionState).closed = false from hc]
  simp only [Bool.false_eq_true, if_false]
  rw [clientParseSse_event ⟨newID, P, now, topic, part⟩
    (show (⟨newID, P, now, topic, part⟩ : Message).id ≠ "" from hid)]

/-- Counterexample to C9 as stated: publishing the EMPTY payload through
the client delivers the produce body `\x7b"payload":""\x7d` itself, not
the empty payload — the broker's body parser falls back to the raw
(trimmed) body when the decoded payload field is empty. -/
theorem claim_C9_counterexample :
    roundTripPayload bW1 "id9" 4 "t" "0" "" "g" = some "\x7b\"payload\":\"\"\x7d" ∧
    roundTripPayload bW1 "id9" 4 "t" "0" "" "g" ≠ some "" := by
  refine ⟨?_, ?_⟩ <;> decide

/-- Witness for the amended C9 at a concrete non-empty payload. -/
theorem claim_C9_witness :
    roundTripPayload bW1 "id9" 4 "t" "0" "hello" "g" = some "hello" :=
  claim_C9 bW1 "id9" 4 "t" "0" "hello" "g" 0 (by decide) (by decide) (by decide)
    (by decide) (by decide) (newPartition "t" 0 30) rfl rfl rfl

end MQ
